import Mathlib

/-!
The binary-proto codec of framework-go and its byte utilities.

A shallow embedding of `binary-proto/codec.go` and of the parts of
`utils/bytes/utils.go` the codec relies on.

* Go byte slices are lists of bytes; a nil slice and an empty slice are both `[]`,
  except for `Equals`, which tests for nil: its arguments are of type `Slice`.
* Go `int` is 64 bits wide; machine integers are mathematical integers and the
  conversions to a fixed width are written out with `/` and `%`.
* A Go panic is the result `none` of an `Option`, or the constructor `Step.panic`.
-/

namespace BinaryProto

/-! ## utils/bytes -/

/-- A Go `byte`. -/
abbrev Byte := Fin 256

/-- The conversion `(byte)(x)` of a signed integer: the low eight bits of its
two's-complement representation. -/
def toByte (x : Int) : Byte := ⟨(x % 256).toNat, by omega⟩

/-- The package variable `TRUE_BYTE`. -/
def TRUE_BYTE : Byte := 1

/-- The package variable `FALSE_BYTE`. -/
def FALSE_BYTE : Byte := 0

/-- Go `Int16ToBytes` (through `int16ToBytes` at offset 0): `value >> 8` is the floor
division by `2^8`, and `& 0x00FF` followed by `(byte)` keeps the low eight bits. -/
def Int16ToBytes (value : Int) : List Byte :=
  [toByte (value / 2 ^ 8), toByte value]

/-- Go `Int32ToBytes` (through `int32ToBytes` at offset 0). -/
def Int32ToBytes (value : Int) : List Byte :=
  [toByte (value / 2 ^ 24), toByte (value / 2 ^ 16), toByte (value / 2 ^ 8), toByte value]

/-- Go `Int64ToBytes` (through `int64ToBytes` at offset 0). -/
def Int64ToBytes (value : Int) : List Byte :=
  [toByte (value / 2 ^ 56), toByte (value / 2 ^ 48), toByte (value / 2 ^ 40),
   toByte (value / 2 ^ 32), toByte (value / 2 ^ 24), toByte (value / 2 ^ 16),
   toByte (value / 2 ^ 8), toByte value]

/-- Go `Int8ToBytes`. -/
def Int8ToBytes (value : Int) : Byte := toByte value

/-- Go `BoolToBytes`. -/
def BoolToBytes (value : Bool) : Byte :=
  if value then TRUE_BYTE else FALSE_BYTE

/-- Go `StringToBytes`: the UTF-8 bytes of the string. -/
def StringToBytes (str : String) : List Byte :=
  (str.data.flatMap String.utf8EncodeChar).map (fun b => toByte (b.toNat : Int))

/-- Go `ToBoolean`. -/
def ToBoolean (b : Byte) : Bool :=
  if b = TRUE_BYTE then true else false

/-- The conversion `int8(x)`: the value of the low 8 bits of `x` read as a signed
two's-complement number. -/
def toInt8 (x : Int) : Int := (x + 128) % 256 - 128

/-- The conversion `int16(x)`. -/
def toInt16 (x : Int) : Int := (x + 32768) % 65536 - 32768

/-- The conversion `int32(x)`. -/
def toInt32 (x : Int) : Int := (x + 2147483648) % 4294967296 - 2147483648

/-- The conversion `int64(x)`. -/
def toInt64 (x : Int) : Int :=
  (x + 9223372036854775808) % 18446744073709551616 - 9223372036854775808

/-- Go `ToInt8`. -/
def ToInt8 (b : Byte) : Int := toInt8 (b.val : Int)

/-- The loop `for i := 0; i < w-len(b); i++ { b = append([]byte{0x00}, b...) }` of
`ToInt16`, `ToInt32` and `ToInt64`, from counter `i` and slice `b`. The bound
`w-len(b)` is evaluated anew before every round, with the slice as grown so far. The
counter never passes `w`, so `w` rounds of fuel are enough. -/
def padLoop (w : Nat) : Nat → Nat → List Byte → List Byte
  | 0, _, b => b
  | fuel + 1, i, b => if i < w - b.length then padLoop w fuel (i + 1) (0 :: b) else b

/-- The statement `if len(b) < w { for ... }` that opens `ToInt16`, `ToInt32` and
`ToInt64`. -/
def padLeft (w : Nat) (b : List Byte) : List Byte :=
  if b.length < w then padLoop w w 0 b else b

/-- Go `binary.BigEndian.Uint16`: a panic on fewer than 2 bytes, else the first two
bytes as a big-endian number. -/
def bigEndianUint16 : List Byte → Option Nat
  | b0 :: b1 :: _ => some (b0.val * 2 ^ 8 + b1.val)
  | _ => none

/-- Go `binary.BigEndian.Uint32`: a panic on fewer than 4 bytes. -/
def bigEndianUint32 : List Byte → Option Nat
  | b0 :: b1 :: b2 :: b3 :: _ => some (b0.val * 2 ^ 24 + b1.val * 2 ^ 16 + b2.val * 2 ^ 8 + b3.val)
  | _ => none

/-- Go `binary.BigEndian.Uint64`: a panic on fewer than 8 bytes. -/
def bigEndianUint64 : List Byte → Option Nat
  | b0 :: b1 :: b2 :: b3 :: b4 :: b5 :: b6 :: b7 :: _ =>
    some (b0.val * 2 ^ 56 + b1.val * 2 ^ 48 + b2.val * 2 ^ 40 + b3.val * 2 ^ 32
      + b4.val * 2 ^ 24 + b5.val * 2 ^ 16 + b6.val * 2 ^ 8 + b7.val)
  | _ => none

/-- Go `ToInt16`; `none` is the panic of the out-of-range read in `Uint16`. -/
def ToInt16 (b : List Byte) : Option Int :=
  (bigEndianUint16 (padLeft 2 b)).map (fun u => toInt16 (u : Int))

/-- Go `ToInt32`; `none` is the panic of the out-of-range read in `Uint32`. -/
def ToInt32 (b : List Byte) : Option Int :=
  (bigEndianUint32 (padLeft 4 b)).map (fun u => toInt32 (u : Int))

/-- Go `ToInt64`; `none` is the panic of the out-of-range read in `Uint64`. -/
def ToInt64 (b : List Byte) : Option Int :=
  (bigEndianUint64 (padLeft 8 b)).map (fun u => toInt64 (u : Int))

/-- Go `IntToBytes` for a 64-bit `int`: `math.MaxInt32` is `2^31 - 1`, and
`int64(value)` is the value itself. -/
def IntToBytes (value : Int) : List Byte :=
  if value ≤ 2147483647 then Int32ToBytes (toInt32 value) else Int64ToBytes value

/-- Go `ToInt` for a 64-bit `int`: the conversions `int(...)` of an int32 and of an
int64 keep the value. -/
def ToInt (bys : List Byte) : Option Int :=
  if bys.length ≤ 4 then ToInt32 bys else ToInt64 bys

/-- The loop of Go `StartsWith` from index `i` with `todo = len(prefixBytes) - i`
rounds left; `none` is the panic of an out-of-range read. -/
def startsWithLoop (srcBytes prefixBytes : List Byte) : Nat → Nat → Option Bool
  | 0, _ => some true
  | todo + 1, i =>
    match prefixBytes.get? i, srcBytes.get? i with
    | some p, some s => if p ≠ s then some false else startsWithLoop srcBytes prefixBytes todo (i + 1)
    | _, _ => none

/-- Go `StartsWith`. -/
def StartsWith (srcBytes prefixBytes : List Byte) : Option Bool :=
  startsWithLoop srcBytes prefixBytes prefixBytes.length 0

/-- A Go byte slice where being nil matters: `none` is the nil slice. -/
abbrev Slice := Option (List Byte)

/-- The bytes of a slice, none for the nil slice: what `string(b)`, `len(b)` and
`b[i]` see. -/
def Slice.bytes : Slice → List Byte
  | none => []
  | some b => b

/-- The final loop of Go `Equals` from index `i` with `todo = len(bytes1) - i`
rounds left; `none` is the panic of an out-of-range read. -/
def equalsLoop (bytes1 bytes2 : List Byte) : Nat → Nat → Option Bool
  | 0, _ => some true
  | todo + 1, i =>
    match bytes1.get? i, bytes2.get? i with
    | some x, some y => if x ≠ y then some false else equalsLoop bytes1 bytes2 todo (i + 1)
    | _, _ => none

/-- Go `Equals`. Two Go strings are equal when they hold the same bytes. -/
def Equals (bytes1 bytes2 : Slice) : Option Bool :=
  if bytes1.bytes = bytes2.bytes then some true
  else if bytes1 = none ∨ bytes2 = none then some false
  else if bytes1.bytes.length ≠ bytes2.bytes.length then some false
  else equalsLoop bytes1.bytes bytes2.bytes bytes1.bytes.length 0

/-- The outcome of matching the bytes `p` against the start of the bytes `s`, by
recursion on the two lists: the loops of `StartsWith` and `Equals` from index `i`
compute it on the bytes from `i` on. -/
def matchFrom : List Byte → List Byte → Option Bool
  | _, [] => some true
  | [], _ :: _ => none
  | y :: s, x :: p => if x ≠ y then some false else matchFrom s p

/-! ## strconv.Atoi -/

/-- The two sentinel errors of package `strconv`. -/
inductive NumErrKind where
  | ErrSyntax
  | ErrRange
  deriving DecidableEq, Repr

/-- Go `*strconv.NumError`, the only error value the codec ever returns. -/
structure NumError where
  Func : String
  Num : String
  Err : NumErrKind
  deriving DecidableEq, Repr

/-- The value of a decimal digit, `none` for every other character. -/
def digitVal (ch : Char) : Option Nat :=
  if 48 ≤ ch.toNat ∧ ch.toNat ≤ 57 then some (ch.toNat - 48) else none

/-- The digit loop of `strconv.ParseUint(s, 10, 64)`: it stops with a syntax error at
the first character that is not a digit and with a range error as soon as the value
leaves the unsigned 64-bit range. -/
def parseUintLoop : List Char → Nat → Except NumErrKind Nat
  | [], n => .ok n
  | ch :: rest, n =>
    match digitVal ch with
    | none => .error .ErrSyntax
    | some d =>
      if n ≥ (2 ^ 64 - 1) / 10 + 1 then .error .ErrRange
      else if n * 10 + d > 2 ^ 64 - 1 then .error .ErrRange
      else parseUintLoop rest (n * 10 + d)

/-- The unsigned part of `strconv.ParseInt`: the empty digit string is a syntax
error. -/
def parseUint (digits : List Char) : Except NumErrKind Nat :=
  match digits with
  | [] => .error .ErrSyntax
  | _ => parseUintLoop digits 0

/-- Go `strconv.Atoi` on a 64-bit platform, as the pair `(int, error)` it returns.
Its fast path for short strings returns what `ParseInt(s, 10, 0)` returns, so the
model follows `ParseInt`: an optional sign, then decimal digits; a syntax error
returns 0 and a range error returns the nearest bound. -/
def Atoi (s : String) : Int × Option NumError :=
  let neg := s.data.head? = some '-'
  let digits := if s.data.head? = some '+' ∨ s.data.head? = some '-' then s.data.tail else s.data
  match parseUint digits with
  | .error .ErrSyntax => (0, some ⟨"Atoi", s, .ErrSyntax⟩)
  | .error .ErrRange =>
    if neg then (-(2 ^ 63), some ⟨"Atoi", s, .ErrRange⟩)
    else (2 ^ 63 - 1, some ⟨"Atoi", s, .ErrRange⟩)
  | .ok un =>
    if ¬ neg ∧ un ≥ 2 ^ 63 then (2 ^ 63 - 1, some ⟨"Atoi", s, .ErrRange⟩)
    else if neg ∧ un > 2 ^ 63 then (-(2 ^ 63), some ⟨"Atoi", s, .ErrRange⟩)
    else if neg then (-(un : Int), none)
    else ((un : Int), none)

/-! ## Field declarations and their tags -/

/-- Modelled from the spec: `bytes.NumberMask` is declared outside the files at hand;
the numeric width/encoding policy of a field is carried as an integer code. -/
abbrev NumberMask := Int

/-- Go `reflect.StructTag`, as the results of the ten `Lookup` calls that
`resolveTags` makes on it: `none` when the key is absent, `some s` when it is present
with value `s`. The key constants `TAG_NAME` ... `TAG_REPEATABLE` are declared outside
the files at hand and are ten distinct keys. -/
structure StructTag where
  TAG_NAME : Option String := none
  TAG_ORDER : Option String := none
  TAG_DESCRIPTION : Option String := none
  TAG_PRIMITIVETYPE : Option String := none
  TAG_REFCONTRACT : Option String := none
  TAG_REFENUM : Option String := none
  TAG_GENERICCONTRACT : Option String := none
  TAG_MAXSIZE : Option String := none
  TAG_NUMBERENCODING : Option String := none
  TAG_REPEATABLE : Option String := none
  deriving DecidableEq, Repr

/-- Go `reflect.StructField`: the declared name of the field and its tag. -/
structure StructField where
  Name : String
  Tag : StructTag
  deriving DecidableEq, Repr

/-- The eleven named results of `resolveTags`. -/
structure ResolvedTags where
  name : String
  order : Int
  description : String
  primitiveType : String
  refContract : Int
  refEnum : Int
  genericContract : Bool
  maxSize : Int
  numberMask : NumberMask
  repeatable : Bool
  err : Option NumError
  deriving DecidableEq, Repr

/-- The named results at function entry: every one holds the zero value of its type. -/
def ResolvedTags.zero : ResolvedTags :=
  ⟨"", 0, "", "", 0, 0, false, 0, 0, false, none⟩

/-- The result of `strconv.Atoi` on a tag value when the key is present; the named
result keeps its zero value and no error arises when the key is absent. -/
def atoiTag (v : Option String) : Int × Option NumError :=
  match v with
  | some s => Atoi s
  | none => (0, none)

/-- Go `resolveTags`. `NUMBERMASK_NONE` and `GetNumberMask` belong to package `bytes`
but are declared outside the files at hand, so they are parameters. Every bare
`return` hands back the named results as assigned so far. -/
def resolveTags (NUMBERMASK_NONE : NumberMask) (GetNumberMask : String → NumberMask)
    (field : StructField) : ResolvedTags :=
  let r := { ResolvedTags.zero with name := field.Tag.TAG_NAME.getD "" }
  let r := { r with order := (atoiTag field.Tag.TAG_ORDER).1, err := (atoiTag field.Tag.TAG_ORDER).2 }
  if r.err.isSome then r else
  let r := { r with description := field.Tag.TAG_DESCRIPTION.getD "" }
  let r := { r with primitiveType := field.Tag.TAG_PRIMITIVETYPE.getD "" }
  let r := { r with refContract := (atoiTag field.Tag.TAG_REFCONTRACT).1,
                    err := (atoiTag field.Tag.TAG_REFCONTRACT).2 }
  if r.err.isSome then r else
  let r := { r with refEnum := (atoiTag field.Tag.TAG_REFENUM).1,
                    err := (atoiTag field.Tag.TAG_REFENUM).2 }
  if r.err.isSome then r else
  let r := { r with genericContract := decide (field.Tag.TAG_GENERICCONTRACT = some "true") }
  let r := { r with maxSize := (match field.Tag.TAG_MAXSIZE with
                                | some maxSizeStr => (Atoi maxSizeStr).1
                                | none => -1),
                    err := (atoiTag field.Tag.TAG_MAXSIZE).2 }
  if r.err.isSome then r else
  let r := { r with numberMask := (match field.Tag.TAG_NUMBERENCODING with
                                   | none => NUMBERMASK_NONE
                                   | some numberEncodingStr => GetNumberMask numberEncodingStr) }
  { r with repeatable := decide (field.Tag.TAG_REPEATABLE = some "true") }

/-! ## Values seen through reflection -/

/-- The integer kinds of Go. -/
inductive IntKind where
  | int | int8 | int16 | int32 | int64
  | uint | uint8 | uint16 | uint32 | uint64
  deriving DecidableEq, Repr

/-- A struct field as `Encode` sees it: `rt.Field(i)` together with `rv.Field(i)`. -/
structure FieldOf (V : Type) where
  tField : StructField
  vField : V

/-- Go `reflect.Value` (with its type), for the kinds a record can hold: booleans,
integers, strings, byte slices, other slices and arrays, and structs. `counted n`
stands for a map, a channel or a pointer to an array with `n` entries: `Len`
succeeds on it, `Bytes` and `Index` panic. `other` stands for a value on which
`Bytes`, `Len` and `Index` all panic (any other pointer, an interface, a func, a
float). -/
inductive Value where
  | bool (b : Bool)
  | int (kind : IntKind) (n : Int)
  | str (s : String)
  | bytes (b : List Byte)
  | slice (elems : List Value)
  | struct (typeName : String) (fields : List (FieldOf Value))
  | counted (n : Nat)
  | other

/-- A struct field of a record. -/
abbrev Field := FieldOf Value

/-- The elements of a value that has elements: the bytes of a byte slice or of a
string as `uint8` values, the elements of another slice or array. -/
def Value.elems : Value → List Value
  | .bytes b => b.map (fun x => Value.int IntKind.uint8 (x.val : Int))
  | .slice elems => elems
  | .str s => (StringToBytes s).map (fun x => Value.int IntKind.uint8 (x.val : Int))
  | _ => []

/-- Go `reflect.Value.Bytes`: the underlying bytes of a byte slice, a panic on every
other value. -/
def Value.Bytes : Value → Option (List Byte)
  | .bytes b => some b
  | _ => none

/-- Go `reflect.Value.Len`: defined on slices, arrays, strings, maps, channels and
pointers to arrays, a panic on the other kinds modelled here. -/
def Value.Len : Value → Option Nat
  | .bytes b => some b.length
  | .slice elems => some elems.length
  | .counted n => some n
  | .str s => some (StringToBytes s).length
  | _ => none

/-- Go `reflect.Value.Index`: the `j`-th element of a slice, array or string, a panic
when `j` is out of range or the value has no elements. -/
def Value.Index : Value → Nat → Option Value
  | .bytes b, j => (Value.bytes b).elems.get? j
  | .slice elems, j => elems.get? j
  | .str s, j => (Value.str s).elems.get? j
  | _, _ => none

/-! ## The registry -/

/-- A Go `map[int32]interface{}` that has been allocated with `make`: its entries,
one per key. -/
abbrev GoMap := List (Int × Value)

/-- The map read `m[k]`. -/
def GoMap.get (m : GoMap) (k : Int) : Option Value :=
  (m.find? (fun e => e.1 == k)).map (fun e => e.2)

/-- The map write `m[k] = v`: the entry at `k` is inserted or replaced. -/
def GoMap.set (m : GoMap) (k : Int) (v : Value) : GoMap :=
  (k, v) :: m.filter (fun e => e.1 != k)

/-- Go `Codec`. The maps of the package variable `Cdc` are allocated by `make` when
the package is initialised, and no code replaces them afterwards. -/
structure Codec where
  contractMap : GoMap
  enumMap : GoMap
  GenericMap : GoMap

/-- The package variable `Cdc` at initialisation. -/
def Cdc : Codec := ⟨[], [], []⟩

/-- Go `Codec.RegisterContract`. -/
def Codec.RegisterContract (c : Codec) (code : Int) (contract : Value) : Codec :=
  { c with contractMap := c.contractMap.set code contract }

/-- Go `Codec.RegisterEnum`. -/
def Codec.RegisterEnum (c : Codec) (code : Int) (enum : Value) : Codec :=
  { c with enumMap := c.enumMap.set code enum }

/-- Go `Codec.RegisterGeneric`: the body is empty. -/
def Codec.RegisterGeneric (c : Codec) (_super : Value) (_concrete : Value) : Codec :=
  c

/-- Go `Codec.Decode`: the body is empty and nothing is returned, so the call leaves
the registry and the target `obj` as they were. The result is the state after the
call: the registry and the target. -/
def Codec.Decode (c : Codec) (_data : List Byte) (obj : Value) : Codec × Value :=
  (c, obj)

/-! ## Encoding -/

/-- The functions and constants that `Encode` and `resolveTags` call but that are
declared outside the files at hand. They are package-level functions: besides their
arguments they can read the package-level registry, which is their first argument
here. They are taken to return (not to panic). -/
structure Encoders where
  PRIMITIVETYPE_BYTES : String
  NUMBERMASK_NONE : NumberMask
  GetNumberMask : String → NumberMask
  encodeHeader : Codec → Value → List Byte
  encodeBytes : Codec → List Byte → List Byte
  encodeArrayHeader : Codec → Nat → List Byte
  encodeGeneric : Codec → Int → List Byte
  encodeContract : Codec → Int → List Byte
  encodeEnum : Codec → Int → List Byte
  encodePrimitiveType : Codec → Value → String → NumberMask → List Byte

/-- The call `resolveTags(tField)` inside `Encode`. -/
def Encoders.resolve (E : Encoders) (tField : StructField) : ResolvedTags :=
  resolveTags E.NUMBERMASK_NONE E.GetNumberMask tField

/-- The pair `(buf, err)` that `Encode` returns. -/
structure EncodeResult where
  buf : List Byte
  err : Option NumError
  deriving DecidableEq, Repr

/-- What one round of the field loop of `Encode` does: it panics, it leaves `Encode`
through `return nil, err`, or it goes on to the next field with the grown buffer. -/
inductive Step where
  | panic
  | abort (err : NumError)
  | next (buf : List Byte)
  deriving DecidableEq, Repr

/-- How `Encode` ends after its field loop: a panic has no result, the early exit is
`return nil, err`, and a completed loop is `return buf, err` with the nil `err` of the
function scope. -/
def Step.toResult : Step → Option EncodeResult
  | .panic => none
  | .abort err => some ⟨[], some err⟩
  | .next buf => some ⟨buf, none⟩

/-- The `if genericContract ... else ...` chain in the body of the element loop: the
bytes appended for one element `value`. -/
def encodeElement (E : Encoders) (cdc : Codec) (t : ResolvedTags) (value : Value) : List Byte :=
  if t.genericContract then E.encodeGeneric cdc t.refContract
  else if t.refContract ≠ 0 then E.encodeContract cdc t.refContract
  else if t.refEnum ≠ 0 then E.encodeEnum cdc t.refEnum
  else E.encodePrimitiveType cdc value t.primitiveType t.numberMask

/-- The loop `for j := 0; j < repeat; j++` of `Encode`, from index `j` with
`todo = repeat - j` rounds left. -/
def encodeElements (E : Encoders) (cdc : Codec) (t : ResolvedTags) (vField : Value) :
    Nat → Nat → List Byte → Option (List Byte)
  | 0, _, buf => some buf
  | todo + 1, j, buf =>
    match (if ¬ t.repeatable then some vField else vField.Index j) with
    | none => none
    | some value => encodeElements E cdc t vField todo (j + 1) (buf ++ encodeElement E cdc t value)

/-- The body of the field loop of `Encode` for one field. -/
def encodeField (E : Encoders) (cdc : Codec) (f : Field) (buf : List Byte) : Step :=
  let t := E.resolve f.tField
  match t.err with
  | some err => .abort err
  | none =>
    if t.primitiveType = E.PRIMITIVETYPE_BYTES then
      match f.vField.Bytes with
      | none => .panic
      | some b => .next (buf ++ E.encodeBytes cdc b)
    else
      match (if t.repeatable then f.vField.Len else some 1) with
      | none => .panic
      | some rep =>
        let buf := if rep > 1 then buf ++ E.encodeArrayHeader cdc rep else buf
        match encodeElements E cdc t f.vField rep 0 buf with
        | none => .panic
        | some buf => .next buf

/-- The loop `for i := 0; i < rt.NumField(); i++` of `Encode` over the fields that
are still to be encoded. -/
def encodeFields (E : Encoders) (cdc : Codec) : List Field → List Byte → Step
  | [], buf => .next buf
  | f :: rest, buf =>
    match encodeField E cdc f buf with
    | .panic => .panic
    | .abort err => .abort err
    | .next buf => encodeFields E cdc rest buf

/-- Go `Codec.Encode`. The receiver is the registry `cdc`. `rt.NumField()` panics
unless `obj` is a struct. The `err` of the final `return buf, err` is the variable
declared at the top of the function, which the loop body shadows and never assigns,
so it is nil. -/
def Codec.Encode (E : Encoders) (cdc : Codec) (obj : Value) : Option EncodeResult :=
  let buf := E.encodeHeader cdc obj
  match obj with
  | .struct _ fields => (encodeFields E cdc fields buf).toResult
  | _ => none

/-! ## The helpers of the encoder, after the specification -/

/-- The name of the struct type of a value, when it is a struct. -/
def Value.typeName? : Value → Option String
  | .struct typeName _ => some typeName
  | _ => none

/-- The code under which the type of `obj` is registered in `m`, when there is one. -/
def registeredCode (m : GoMap) (obj : Value) : Option Int :=
  (m.find? (fun e => obj.typeName?.isSome && e.2.typeName? == obj.typeName?)).map (fun e => e.1)

/-- Modelled from the spec: `encodeHeader`, `encodeBytes`, `encodeArrayHeader`,
`encodeGeneric`, `encodeContract`, `encodeEnum`, `encodePrimitiveType`, the constant
`PRIMITIVETYPE_BYTES` and the number masks are declared outside the files at hand.
After §4.3, §4.4 and §6: the header is the registered type code of the record as a
4-byte big-endian integer (nothing when the type is not registered); a byte blob is a
4-byte count followed by the raw bytes; an array header is a 4-byte count; a generic,
contract or enum element is the 4-byte code it is called with; a primitive is a
big-endian integer at the width of its kind, a one-byte boolean, or a length-prefixed
UTF-8 string. -/
def specEncoders : Encoders where
  PRIMITIVETYPE_BYTES := "BYTES"
  NUMBERMASK_NONE := 0
  GetNumberMask := fun _ => 0
  encodeHeader := fun cdc obj =>
    match registeredCode cdc.contractMap obj with
    | some code => Int32ToBytes code
    | none => []
  encodeBytes := fun _ b => Int32ToBytes b.length ++ b
  encodeArrayHeader := fun _ n => Int32ToBytes n
  encodeGeneric := fun _ refContract => Int32ToBytes refContract
  encodeContract := fun _ refContract => Int32ToBytes refContract
  encodeEnum := fun _ refEnum => Int32ToBytes refEnum
  encodePrimitiveType := fun _ value _ _ =>
    match value with
    | .bool b => [BoolToBytes b]
    | .int .int8 n => [Int8ToBytes n]
    | .int .uint8 n => [Int8ToBytes n]
    | .int .int16 n => Int16ToBytes n
    | .int .uint16 n => Int16ToBytes n
    | .int .int32 n => Int32ToBytes n
    | .int .uint32 n => Int32ToBytes n
    | .int _ n => Int64ToBytes n
    | .str s => Int32ToBytes (StringToBytes s).length ++ StringToBytes s
    | _ => []


/-! ## Records that conform to their schema, and the wire format of a field -/

/-- A field conforms to its schema when its value has the shape its tags announce
(nothing is asked of a field whose tags do not resolve): a byte slice under the
byte-blob kind; under a repeatable tag of any other kind a value whose `Len` is the
number of its elements (a slice, an array or a string, or a map, channel or pointer
to an array that is empty). These are the fields on which the reflection calls of
`Encode` do not panic. -/
def Field.Conforms (E : Encoders) (f : Field) : Prop :=
  (E.resolve f.tField).err = none →
    if (E.resolve f.tField).primitiveType = E.PRIMITIVETYPE_BYTES then f.vField.Bytes.isSome = true
    else if (E.resolve f.tField).repeatable = true then
      f.vField.Len = some f.vField.elems.length
    else True

instance Field.decidableConforms (E : Encoders) (f : Field) : Decidable (f.Conforms E) := by
  unfold Field.Conforms
  infer_instance

/-- The fields of a record that the field loop of `Encode` gets to encode: those that
precede the first field on which `resolveTags` fails (all of them when none fails). -/
def encodedFields (E : Encoders) (fs : List Field) : List Field :=
  fs.takeWhile (fun (f : Field) => (E.resolve f.tField).err.isNone)

/-- The wire format of one field, following §6 of the specification: a byte blob is
one `encodeBytes` unit; a repeated field is its elements one after the other,
preceded by the array header when there are more than one; any other field is its one
element. -/
def fieldWire (E : Encoders) (cdc : Codec) (f : Field) : List Byte :=
  if (E.resolve f.tField).primitiveType = E.PRIMITIVETYPE_BYTES then
    E.encodeBytes cdc (f.vField.Bytes.getD [])
  else if (E.resolve f.tField).repeatable = true then
    (if f.vField.elems.length > 1 then E.encodeArrayHeader cdc f.vField.elems.length else [])
      ++ f.vField.elems.flatMap (encodeElement E cdc (E.resolve f.tField))
  else encodeElement E cdc (E.resolve f.tField) f.vField

/-! ## Sample records -/

/-- A field declared with order 1 that holds the int32 value 1. -/
def fA : Field :=
  ⟨⟨"A", { TAG_ORDER := some "1", TAG_PRIMITIVETYPE := some "INT32" }⟩, .int .int32 1⟩

/-- A field declared with order 0 that holds the boolean true. -/
def fB : Field :=
  ⟨⟨"B", { TAG_ORDER := some "0", TAG_PRIMITIVETYPE := some "BOOLEAN" }⟩, .bool true⟩

/-- A repeatable int16 field with two elements. -/
def fC : Field :=
  ⟨⟨"C", { TAG_ORDER := some "2", TAG_PRIMITIVETYPE := some "INT16",
           TAG_REPEATABLE := some "true" }⟩, .slice [.int .int16 5, .int .int16 6]⟩

/-- A byte-blob field that is also marked repeatable. -/
def fD : Field :=
  ⟨⟨"D", { TAG_ORDER := some "3", TAG_PRIMITIVETYPE := some "BYTES",
           TAG_REPEATABLE := some "true" }⟩, .bytes [7, 8]⟩

/-- The registry after the struct type `T` has been registered under code 1001. -/
def cdc1 : Codec := Cdc.RegisterContract 1001 (.struct "T" [])

/-- The first field of the scenario of §8: order 0, an int32 holding `n`. -/
def fCount (n : Int) : Field :=
  ⟨⟨"Count", { TAG_ORDER := some "0", TAG_PRIMITIVETYPE := some "INT32" }⟩, .int .int32 n⟩

/-- The second field of the scenario of §8: order 1, a boolean holding `b`. -/
def fFlag (b : Bool) : Field :=
  ⟨⟨"Flag", { TAG_ORDER := some "1", TAG_PRIMITIVETYPE := some "BOOLEAN" }⟩, .bool b⟩

/-- The record `{17, true}` of the scenario of §8. -/
def recScenario : Value := .struct "T" [fCount 17, fFlag true]

/-- The record of the scenario with the declaration positions of its two fields
exchanged; each field keeps its order tag and its value. -/
def recSwapped : Value := .struct "T" [fFlag true, fCount 17]

/-- A fresh target of the scenario's type: every field holds its zero value. -/
def recFresh : Value := .struct "T" [fCount 0, fFlag false]

/-- A boolean field that carries the order tag 0, the order of `fCount`. -/
def fFlagAtZero : Field :=
  ⟨⟨"Flag", { TAG_ORDER := some "0", TAG_PRIMITIVETYPE := some "BOOLEAN" }⟩, .bool true⟩

/-- A record with two fields that both carry the order tag 0. -/
def recDuplicateOrder : Value := .struct "T" [fCount 17, fFlagAtZero]

/-- A nested record of type `Inner` with one int32 field holding `n`. -/
def recInner (n : Int) : Value := .struct "Inner" [fCount n]

/-- A field that references the contract code 1002 and holds the nested record
`inner`. -/
def fBody (inner : Value) : Field :=
  ⟨⟨"Body", { TAG_ORDER := some "0", TAG_REFCONTRACT := some "1002" }⟩, inner⟩

/-- A record of type `Outer` whose only field holds the nested record `inner`. -/
def recOuter (inner : Value) : Value := .struct "Outer" [fBody inner]

/-- The registry after `Outer` has been registered under 1001 and `Inner` under
1002. -/
def cdc2 : Codec :=
  (Cdc.RegisterContract 1001 (recOuter (recInner 0))).RegisterContract 1002 (recInner 0)

/-- A field tagged generic that declares the reference code 1002 and holds the
runtime value `v`. -/
def fGeneric (v : Value) : Field :=
  ⟨⟨"Body", { TAG_ORDER := some "0", TAG_REFCONTRACT := some "1002",
              TAG_GENERICCONTRACT := some "true" }⟩, v⟩

/-- A field tagged generic whose primitive type is the byte-blob kind, holding the
bytes `b`. -/
def fGenericBlob (b : List Byte) : Field :=
  ⟨⟨"Payload", { TAG_ORDER := some "0", TAG_PRIMITIVETYPE := some "BYTES",
                 TAG_REFCONTRACT := some "1002", TAG_GENERICCONTRACT := some "true" }⟩, .bytes b⟩

/-- An int32 field holding 17 whose maxSize tag is `m`. -/
def fSized (m : Option String) : Field :=
  ⟨⟨"Count", { TAG_ORDER := some "0", TAG_PRIMITIVETYPE := some "INT32", TAG_MAXSIZE := m }⟩,
    .int .int32 17⟩

/-- The registry after `T` has been registered under 1001 and `U` under 1003. -/
def cdc3 : Codec := cdc1.RegisterContract 1003 (.struct "U" [])

/-- A record of the struct type `U` with the fields, the tags and the values of the
scenario record of type `T`. -/
def recScenarioU : Value := .struct "U" [fCount 17, fFlag true]

/-- An int32 field marked repeatable that holds a single integer, not a slice. -/
def fRepeatScalar : Field :=
  ⟨⟨"Items", { TAG_ORDER := some "0", TAG_PRIMITIVETYPE := some "INT32",
               TAG_REPEATABLE := some "true" }⟩, .int .int32 5⟩

/-- A field whose order tag is not an integer. -/
def fBadOrder : Field := ⟨⟨"Bad", { TAG_ORDER := some "x1" }⟩, .bool true⟩

/-! ## Lemmas on the loops -/

theorem Value.Index_elems (v : Value) (j : Nat) (hj : j < v.elems.length) :
    v.Index j = v.elems.get? j := by
  cases v <;> simp_all [Value.Index, Value.elems]

theorem Value.Index_zero_of_Len_ne {v : Value} {n : Nat} (h : v.Len = some n)
    (hne : n ≠ v.elems.length) : 0 < n ∧ v.Index 0 = none := by
  cases v <;> simp_all [Value.Len, Value.Index, Value.elems]
  omega

theorem encodeElements_single (E : Encoders) (cdc : Codec) (t : ResolvedTags) (v : Value)
    (buf : List Byte) (h : t.repeatable = false) :
    encodeElements E cdc t v 1 0 buf = some (buf ++ encodeElement E cdc t v) := by
  simp [encodeElements, h]

theorem encodeElements_list (E : Encoders) (cdc : Codec) (t : ResolvedTags) (v : Value)
    (h : t.repeatable = true) :
    ∀ (ys : List Value) (j : Nat) (buf : List Byte),
      (∀ i, i < ys.length → v.Index (j + i) = ys.get? i) →
      encodeElements E cdc t v ys.length j buf
        = some (buf ++ ys.flatMap (encodeElement E cdc t)) := by
  intro ys
  induction ys with
  | nil => intro j buf _; simp [encodeElements]
  | cons y ys ih =>
    intro j buf hidx
    have h0 : v.Index j = some y := by simpa using hidx 0 (by simp)
    have hrest : ∀ i, i < ys.length → v.Index (j + 1 + i) = ys.get? i := by
      intro i hi
      have := hidx (i + 1) (by simpa using hi)
      simpa [Nat.add_assoc, Nat.add_comm 1 i] using this
    simp [encodeElements, h, h0, ih (j + 1) _ hrest, List.append_assoc]

theorem encodeFields_append (E : Encoders) (cdc : Codec) (pre post : List Field) :
    ∀ (buf B : List Byte), encodeFields E cdc pre buf = .next B →
      encodeFields E cdc (pre ++ post) buf = encodeFields E cdc post B := by
  induction pre with
  | nil => intro buf B h; simp [encodeFields] at h; simp [h]
  | cons f pre ih =>
    intro buf B h
    simp only [encodeFields, List.cons_append] at h ⊢
    cases hf : encodeField E cdc f buf with
    | panic => simp [hf] at h
    | abort e => simp [hf] at h
    | next b => simp only [hf] at h ⊢; exact ih b B h

theorem encodeField_blob (E : Encoders) (cdc : Codec) (f : Field) (buf b : List Byte)
    (hres : (E.resolve f.tField).err = none)
    (hblob : (E.resolve f.tField).primitiveType = E.PRIMITIVETYPE_BYTES)
    (hb : f.vField.Bytes = some b) :
    encodeField E cdc f buf = .next (buf ++ E.encodeBytes cdc b) := by
  simp [encodeField, hres, hblob, hb]

theorem encodeField_repeated (E : Encoders) (cdc : Codec) (f : Field) (buf : List Byte)
    (xs : List Value)
    (hres : (E.resolve f.tField).err = none)
    (hblob : (E.resolve f.tField).primitiveType ≠ E.PRIMITIVETYPE_BYTES)
    (hrep : (E.resolve f.tField).repeatable = true)
    (hlen : f.vField.Len = some xs.length)
    (hidx : ∀ j, j < xs.length → f.vField.Index j = xs.get? j) :
    encodeField E cdc f buf
      = .next ((if xs.length > 1 then buf ++ E.encodeArrayHeader cdc xs.length else buf)
          ++ xs.flatMap (encodeElement E cdc (E.resolve f.tField))) := by
  have hl := encodeElements_list E cdc (E.resolve f.tField) f.vField hrep xs 0
    (if xs.length > 1 then buf ++ E.encodeArrayHeader cdc xs.length else buf)
    (by intro i hi; simpa using hidx i hi)
  simp [encodeField, hres, hblob, hrep, hlen, hl]

theorem encodeField_single (E : Encoders) (cdc : Codec) (f : Field) (buf : List Byte)
    (hres : (E.resolve f.tField).err = none)
    (hblob : (E.resolve f.tField).primitiveType ≠ E.PRIMITIVETYPE_BYTES)
    (hrep : (E.resolve f.tField).repeatable = false) :
    encodeField E cdc f buf
      = .next (buf ++ encodeElement E cdc (E.resolve f.tField) f.vField) := by
  simp [encodeField, hres, hblob, hrep, encodeElements]

theorem encodeField_abort (E : Encoders) (cdc : Codec) (f : Field) (buf : List Byte)
    (e : NumError) (hres : (E.resolve f.tField).err = some e) :
    encodeField E cdc f buf = .abort e := by
  simp [encodeField, hres]

theorem Encode_at_field (E : Encoders) (cdc : Codec) (typeName : String)
    (pre post : List Field) (f : Field) (B B1 : List Byte)
    (hpre : encodeFields E cdc pre
      (E.encodeHeader cdc (Value.struct typeName (pre ++ f :: post))) = .next B)
    (hf : encodeField E cdc f B = .next B1) :
    Codec.Encode E cdc (Value.struct typeName (pre ++ f :: post))
      = (encodeFields E cdc post B1).toResult := by
  simp only [Codec.Encode]
  rw [encodeFields_append E cdc pre (f :: post) _ B hpre]
  simp [encodeFields, hf]

theorem resolve_repeatable_tag (E : Encoders) (sf : StructField) (rep : Option String) :
    (E.resolve ⟨sf.Name, { sf.Tag with TAG_REPEATABLE := rep }⟩).err = (E.resolve sf).err ∧
    (E.resolve ⟨sf.Name, { sf.Tag with TAG_REPEATABLE := rep }⟩).primitiveType
      = (E.resolve sf).primitiveType := by
  simp only [Encoders.resolve, resolveTags]
  split_ifs <;> simp_all

theorem resolve_repeatable_err (E : Encoders) (sf : StructField)
    (h : (E.resolve sf).repeatable = true) : (E.resolve sf).err = none := by
  revert h
  simp only [Encoders.resolve, resolveTags]
  split_ifs <;> simp_all [ResolvedTags.zero]

theorem encodeField_wire (E : Encoders) (cdc : Codec) (f : Field) (buf : List Byte)
    (hc : f.Conforms E) (hres : (E.resolve f.tField).err = none) :
    encodeField E cdc f buf = .next (buf ++ fieldWire E cdc f) := by
  replace hc := hc hres
  unfold fieldWire
  by_cases hblob : (E.resolve f.tField).primitiveType = E.PRIMITIVETYPE_BYTES
  · rw [if_pos hblob] at hc ⊢
    obtain ⟨b, hb⟩ := Option.isSome_iff_exists.mp hc
    rw [encodeField_blob E cdc f buf b hres hblob hb, hb]
    rfl
  · rw [if_neg hblob] at hc ⊢
    by_cases hrep : (E.resolve f.tField).repeatable = true
    · rw [if_pos hrep] at hc ⊢
      rw [encodeField_repeated E cdc f buf f.vField.elems hres hblob hrep hc
        (fun j hj => Value.Index_elems f.vField j hj)]
      by_cases hgt : f.vField.elems.length > 1 <;> simp [hgt, List.append_assoc]
    · rw [if_neg hrep]
      exact encodeField_single E cdc f buf hres hblob (by simpa using hrep)

theorem encodeFields_conforms (E : Encoders) (cdc : Codec) :
    ∀ (fs : List Field) (buf : List Byte), (∀ f ∈ fs, f.Conforms E) →
      encodeFields E cdc fs buf =
        match fs.findSome? (fun f => (E.resolve f.tField).err) with
        | some e => .abort e
        | none => .next (buf ++ fs.flatMap (fieldWire E cdc)) := by
  intro fs
  induction fs with
  | nil => intro buf _; simp [encodeFields]
  | cons f fs ih =>
    intro buf hc
    have hcf : f.Conforms E := hc f (List.mem_cons_self _ _)
    have hcs : ∀ g ∈ fs, g.Conforms E := fun g hg => hc g (List.mem_cons_of_mem _ hg)
    cases hres : (E.resolve f.tField).err with
    | some e =>
      simp [encodeFields, encodeField_abort E cdc f buf e hres, List.findSome?, hres]
    | none =>
      simp only [encodeFields, encodeField_wire E cdc f buf hcf hres, List.findSome?, hres,
        ih _ hcs, List.flatMap_cons, List.append_assoc]

theorem Encode_conforms (E : Encoders) (cdc : Codec) (typeName : String) (fs : List Field)
    (hc : ∀ f ∈ fs, f.Conforms E) :
    Codec.Encode E cdc (Value.struct typeName fs) =
      match fs.findSome? (fun f => (E.resolve f.tField).err) with
      | some e => some ⟨[], some e⟩
      | none => some ⟨E.encodeHeader cdc (Value.struct typeName fs)
                        ++ fs.flatMap (fieldWire E cdc), none⟩ := by
  simp only [Codec.Encode, encodeFields_conforms E cdc fs _ hc]
  cases fs.findSome? (fun f => (E.resolve f.tField).err) <;> rfl

theorem encodeField_panic (E : Encoders) (cdc : Codec) (f : Field) (buf : List Byte)
    (hres : (E.resolve f.tField).err = none) (hc : ¬ f.Conforms E) :
    encodeField E cdc f buf = .panic := by
  have hc2 : ¬ (if (E.resolve f.tField).primitiveType = E.PRIMITIVETYPE_BYTES then
        f.vField.Bytes.isSome = true
      else if (E.resolve f.tField).repeatable = true then
        f.vField.Len = some f.vField.elems.length
      else True) := fun h => hc (fun _ => h)
  by_cases hblob : (E.resolve f.tField).primitiveType = E.PRIMITIVETYPE_BYTES
  · rw [if_pos hblob] at hc2
    have hb : f.vField.Bytes = none := by
      cases h : f.vField.Bytes with
      | none => rfl
      | some b => rw [h] at hc2; exact absurd rfl hc2
    simp [encodeField, hres, hblob, hb]
  · rw [if_neg hblob] at hc2
    by_cases hrep : (E.resolve f.tField).repeatable = true
    · rw [if_pos hrep] at hc2
      cases hlen : f.vField.Len with
      | none => simp [encodeField, hres, hblob, hrep, hlen]
      | some n =>
        have hne : n ≠ f.vField.elems.length := by
          intro h; apply hc2; rw [hlen, h]
        obtain ⟨hpos, hidx⟩ := Value.Index_zero_of_Len_ne hlen hne
        obtain ⟨m, rfl⟩ : ∃ m, n = m + 1 := ⟨n - 1, by omega⟩
        simp [encodeField, hres, hblob, hrep, hlen, encodeElements, hidx]
    · rw [if_neg hrep] at hc2
      exact absurd trivial hc2

theorem encodeFields_outcome (E : Encoders) (cdc : Codec) :
    ∀ (fs : List Field) (buf : List Byte),
      encodeFields E cdc fs buf =
        if ∀ f ∈ encodedFields E fs, f.Conforms E then
          match fs.findSome? (fun f => (E.resolve f.tField).err) with
          | some e => .abort e
          | none => .next (buf ++ fs.flatMap (fieldWire E cdc))
        else .panic := by
  intro fs
  induction fs with
  | nil => intro buf; simp [encodeFields, encodedFields]
  | cons f fs ih =>
    intro buf
    cases hres : (E.resolve f.tField).err with
    | some e =>
      simp [encodeFields, encodeField_abort E cdc f buf e hres, List.findSome?, hres,
        encodedFields, List.takeWhile]
    | none =>
      have htw : encodedFields E (f :: fs) = f :: encodedFields E fs := by
        simp [encodedFields, List.takeWhile, hres]
      by_cases hcf : f.Conforms E
      · simp only [encodeFields, encodeField_wire E cdc f buf hcf hres, ih, List.findSome?, hres,
          htw, List.mem_cons, forall_eq_or_imp, hcf, true_and,
          List.flatMap_cons, List.append_assoc]
      · simp only [encodeFields, encodeField_panic E cdc f buf hres hcf, htw,
          List.mem_cons, forall_eq_or_imp, hcf, false_and, if_false]

theorem Encode_outcome (E : Encoders) (cdc : Codec) (typeName : String) (fs : List Field) :
    Codec.Encode E cdc (Value.struct typeName fs) =
      if ∀ f ∈ encodedFields E fs, f.Conforms E then
        match fs.findSome? (fun f => (E.resolve f.tField).err) with
        | some e => some ⟨[], some e⟩
        | none => some ⟨E.encodeHeader cdc (Value.struct typeName fs)
                          ++ fs.flatMap (fieldWire E cdc), none⟩
      else none := by
  simp only [Codec.Encode, encodeFields_outcome E cdc fs]
  split_ifs
  · cases fs.findSome? (fun f => (E.resolve f.tField).err) <;> rfl
  · rfl

theorem Encode_of_failing_field (E : Encoders) (cdc : Codec) (typeName : String)
    (fs : List Field) (f : Field) (hf : f ∈ fs) (hbad : (E.resolve f.tField).err ≠ none) :
    (∀ res, Codec.Encode E cdc (Value.struct typeName fs) = some res →
      res.err ≠ none ∧ res.buf = []) ∧
    ((∀ g ∈ encodedFields E fs, g.Conforms E) →
      ∃ e, Codec.Encode E cdc (Value.struct typeName fs) = some ⟨[], some e⟩) := by
  have hE := Encode_outcome E cdc typeName fs
  obtain ⟨e, he⟩ : ∃ e, fs.findSome? (fun f => (E.resolve f.tField).err) = some e := by
    cases h : fs.findSome? (fun f => (E.resolve f.tField).err) with
    | some e => exact ⟨e, rfl⟩
    | none => exact absurd (List.findSome?_eq_none_iff.mp h f hf) hbad
  rw [he] at hE
  constructor
  · intro res hres
    by_cases hc : ∀ g ∈ encodedFields E fs, g.Conforms E
    · rw [hE, if_pos hc, Option.some.injEq] at hres
      subst hres
      exact ⟨by simp, rfl⟩
    · rw [hE, if_neg hc] at hres
      cases hres
  · intro hc
    exact ⟨e, by rw [hE, if_pos hc]⟩

theorem mem_encodedFields_append (E : Encoders) (bad : Field) (post : List Field)
    (hbad : (E.resolve bad.tField).err ≠ none) :
    ∀ (pre : List Field) (g : Field), g ∈ encodedFields E (pre ++ bad :: post) → g ∈ pre := by
  intro pre
  induction pre with
  | nil =>
    intro g hg
    have hb : (E.resolve bad.tField).err.isNone = false := by
      cases h : (E.resolve bad.tField).err with
      | none => exact absurd h hbad
      | some e => rfl
    simp [encodedFields, List.takeWhile, hb] at hg
  | cons a pre ih =>
    intro g hg
    cases ha : (E.resolve a.tField).err.isNone with
    | false => simp [encodedFields, List.takeWhile, ha] at hg
    | true =>
      have htw : encodedFields E (a :: (pre ++ bad :: post))
          = a :: encodedFields E (pre ++ bad :: post) := by
        simp [encodedFields, List.takeWhile, ha]
      rw [List.cons_append, htw, List.mem_cons] at hg
      rcases hg with rfl | hg
      · exact List.mem_cons_self _ _
      · exact List.mem_cons_of_mem _ (ih g hg)

theorem resolve_maxSize_rejected (E : Encoders) (sf : StructField) (s : String)
    (h : (Atoi s).2 ≠ none) :
    (E.resolve ⟨sf.Name, { sf.Tag with TAG_MAXSIZE := some s }⟩).err ≠ none := by
  obtain ⟨e, he⟩ := Option.ne_none_iff_exists'.mp h
  have he2 : (atoiTag (some s)).2 = some e := he
  simp only [Encoders.resolve, resolveTags, he2]
  split_ifs <;> intro hx <;> simp_all

theorem resolve_order_tag (E : Encoders) (sf : StructField) (s : String)
    (h0 : (atoiTag sf.Tag.TAG_ORDER).2 = none) (h1 : (Atoi s).2 = none) :
    E.resolve ⟨sf.Name, { sf.Tag with TAG_ORDER := some s }⟩
      = { E.resolve sf with order := (Atoi s).1 } := by
  have h1' : (atoiTag (some s)).2 = none := h1
  simp only [Encoders.resolve, resolveTags, h0, h1']
  split_ifs <;> simp_all [atoiTag]

theorem fieldWire_order_tag (E : Encoders) (cdc : Codec) (f : Field) (s : String)
    (h0 : (atoiTag f.tField.Tag.TAG_ORDER).2 = none) (h1 : (Atoi s).2 = none) :
    fieldWire E cdc ⟨⟨f.tField.Name, { f.tField.Tag with TAG_ORDER := some s }⟩, f.vField⟩
      = fieldWire E cdc f := by
  rw [fieldWire, fieldWire, resolve_order_tag E f.tField s h0 h1]
  rfl

theorem encodeField_congr (E : Encoders) (cdc : Codec) (f g : Field) (buf : List Byte)
    (ht : f.tField.Tag = g.tField.Tag) (hv : f.vField = g.vField) :
    encodeField E cdc f buf = encodeField E cdc g buf := by
  simp only [encodeField, Encoders.resolve, resolveTags, ht, hv]

theorem encodeFields_congr (E : Encoders) (cdc : Codec) :
    ∀ (fs gs : List Field) (buf : List Byte),
      fs.map (fun f => (f.tField.Tag, f.vField)) = gs.map (fun f => (f.tField.Tag, f.vField)) →
      encodeFields E cdc fs buf = encodeFields E cdc gs buf := by
  intro fs
  induction fs with
  | nil =>
    intro gs buf h
    cases gs with
    | nil => rfl
    | cons g gs => simp at h
  | cons f fs ih =>
    intro gs buf h
    cases gs with
    | nil => simp at h
    | cons g gs =>
      simp only [List.map_cons, List.cons.injEq, Prod.mk.injEq] at h
      simp only [encodeFields, encodeField_congr E cdc f g buf h.1.1 h.1.2]
      cases encodeField E cdc g buf with
      | panic => rfl
      | abort e => rfl
      | next b => exact ih gs b h.2

theorem GoMap.get_set_self (m : GoMap) (k : Int) (v : Value) : (m.set k v).get k = some v := by
  simp [GoMap.get, GoMap.set]

theorem GoMap.find_filter_other (m : GoMap) (k k2 : Int) (h : k2 ≠ k) :
    (m.filter (fun e => e.1 != k)).find? (fun e => e.1 == k2) = m.find? (fun e => e.1 == k2) := by
  induction m with
  | nil => rfl
  | cons e m ih =>
    by_cases he : e.1 = k
    · have h1 : (e.1 != k) = false := by simp [he]
      have h2 : (e.1 == k2) = false := by
        rw [he]; exact beq_false_of_ne (fun c => h c.symm)
      rw [List.filter_cons, h1, List.find?_cons, h2]
      simpa using ih
    · have h1 : (e.1 != k) = true := by simp [he]
      rw [List.filter_cons, h1]
      simp only [if_true, List.find?_cons, ih]

theorem GoMap.get_set_other (m : GoMap) (k k2 : Int) (v : Value) (h : k2 ≠ k) :
    (m.set k v).get k2 = m.get k2 := by
  have hk : (k == k2) = false := beq_false_of_ne (fun c => h c.symm)
  simp only [GoMap.get, GoMap.set, List.find?_cons, hk, GoMap.find_filter_other m k k2 h]

theorem encodeFields_middle (E : Encoders) (cdc : Codec) (f g : Field)
    (h : ∀ buf, encodeField E cdc f buf = encodeField E cdc g buf) (post : List Field) :
    ∀ (pre : List Field) (buf : List Byte),
      encodeFields E cdc (pre ++ f :: post) buf = encodeFields E cdc (pre ++ g :: post) buf := by
  intro pre
  induction pre with
  | nil => intro buf; simp only [List.nil_append, encodeFields, h buf]
  | cons a pre ih =>
    intro buf
    simp only [List.cons_append, encodeFields]
    cases encodeField E cdc a buf with
    | panic => rfl
    | abort e => rfl
    | next b => exact ih b

theorem Encode_middle (E : Encoders) (cdc : Codec) (typeName : String) (f g : Field)
    (pre post : List Field)
    (h : ∀ buf, encodeField E cdc f buf = encodeField E cdc g buf)
    (hhead : E.encodeHeader cdc (Value.struct typeName (pre ++ f :: post))
      = E.encodeHeader cdc (Value.struct typeName (pre ++ g :: post))) :
    Codec.Encode E cdc (Value.struct typeName (pre ++ f :: post))
      = Codec.Encode E cdc (Value.struct typeName (pre ++ g :: post)) := by
  simp only [Codec.Encode, hhead, encodeFields_middle E cdc f g h post pre]

theorem encodeElements_congr (E : Encoders) (cdc : Codec) (t1 t2 : ResolvedTags) (vField : Value)
    (hrep : t1.repeatable = t2.repeatable)
    (hel : ∀ v, encodeElement E cdc t1 v = encodeElement E cdc t2 v) :
    ∀ (todo j : Nat) (buf : List Byte),
      encodeElements E cdc t1 vField todo j buf = encodeElements E cdc t2 vField todo j buf := by
  intro todo
  induction todo with
  | zero => intro j buf; rfl
  | succ todo ih =>
    intro j buf
    simp only [encodeElements, hrep]
    cases (if ¬ t2.repeatable = true then some vField else vField.Index j) with
    | none => rfl
    | some value => simp only [hel, ih]

theorem encodeField_congr_tags (E : Encoders) (cdc : Codec) (f g : Field) (buf : List Byte)
    (hv : f.vField = g.vField)
    (herr : (E.resolve f.tField).err = (E.resolve g.tField).err)
    (hprim : (E.resolve f.tField).primitiveType = (E.resolve g.tField).primitiveType)
    (hrep : (E.resolve f.tField).repeatable = (E.resolve g.tField).repeatable)
    (hel : ∀ v, encodeElement E cdc (E.resolve f.tField) v
      = encodeElement E cdc (E.resolve g.tField) v) :
    encodeField E cdc f buf = encodeField E cdc g buf := by
  simp only [encodeField, hv, herr, hprim, hrep,
    encodeElements_congr E cdc (E.resolve f.tField) (E.resolve g.tField) g.vField hrep hel]

theorem resolve_set_repeatable (E : Encoders) (sf : StructField) (r : Option String)
    (h : (E.resolve sf).err = none) :
    E.resolve ⟨sf.Name, { sf.Tag with TAG_REPEATABLE := r }⟩
      = { E.resolve sf with repeatable := decide (r = some "true") } := by
  revert h
  simp only [Encoders.resolve, resolveTags]
  split_ifs <;> intro hx <;> simp_all

theorem resolve_set_maxSize (E : Encoders) (sf : StructField) (m1 m2 : Option String)
    (h1 : (atoiTag m1).2 = none) (h2 : (atoiTag m2).2 = none) :
    E.resolve ⟨sf.Name, { sf.Tag with TAG_MAXSIZE := m1 }⟩
      = { E.resolve ⟨sf.Name, { sf.Tag with TAG_MAXSIZE := m2 }⟩ with
          maxSize := (E.resolve ⟨sf.Name, { sf.Tag with TAG_MAXSIZE := m1 }⟩).maxSize } := by
  simp only [Encoders.resolve, resolveTags, h1, h2]
  split_ifs <;> simp_all

/-! ## Lemmas on the byte utilities -/

theorem toByte_val (x : Int) : ((toByte x).val : Int) = x % 256 := by
  simp only [toByte]
  omega

theorem ToInt16_two (b0 b1 : Byte) :
    ToInt16 [b0, b1] = some (toInt16 ((b0.val * 2 ^ 8 + b1.val : Nat) : Int)) := rfl

theorem ToInt32_four (b0 b1 b2 b3 : Byte) :
    ToInt32 [b0, b1, b2, b3]
      = some (toInt32 ((b0.val * 2 ^ 24 + b1.val * 2 ^ 16 + b2.val * 2 ^ 8 + b3.val : Nat) : Int)) :=
  rfl

theorem ToInt64_eight (b0 b1 b2 b3 b4 b5 b6 b7 : Byte) :
    ToInt64 [b0, b1, b2, b3, b4, b5, b6, b7]
      = some (toInt64 ((b0.val * 2 ^ 56 + b1.val * 2 ^ 48 + b2.val * 2 ^ 40 + b3.val * 2 ^ 32
          + b4.val * 2 ^ 24 + b5.val * 2 ^ 16 + b6.val * 2 ^ 8 + b7.val : Nat) : Int)) :=
  rfl

theorem bytes16_val (v b0 b1 : Int) (h0 : b0 = v / 2 ^ 8 % 256) (h1 : b1 = v % 256) :
    b0 * 2 ^ 8 + b1 = v % 65536 := by
  omega

theorem bytes32_val (v b0 b1 b2 b3 : Int) (h0 : b0 = v / 2 ^ 24 % 256)
    (h1 : b1 = v / 2 ^ 16 % 256) (h2 : b2 = v / 2 ^ 8 % 256) (h3 : b3 = v % 256) :
    b0 * 2 ^ 24 + b1 * 2 ^ 16 + b2 * 2 ^ 8 + b3 = v % 4294967296 := by
  omega

theorem bytes64_val (v b0 b1 b2 b3 b4 b5 b6 b7 : Int) (h0 : b0 = v / 2 ^ 56 % 256)
    (h1 : b1 = v / 2 ^ 48 % 256) (h2 : b2 = v / 2 ^ 40 % 256) (h3 : b3 = v / 2 ^ 32 % 256)
    (h4 : b4 = v / 2 ^ 24 % 256) (h5 : b5 = v / 2 ^ 16 % 256) (h6 : b6 = v / 2 ^ 8 % 256)
    (h7 : b7 = v % 256) :
    b0 * 2 ^ 56 + b1 * 2 ^ 48 + b2 * 2 ^ 40 + b3 * 2 ^ 32 + b4 * 2 ^ 24 + b5 * 2 ^ 16
      + b6 * 2 ^ 8 + b7 = v % 18446744073709551616 := by
  omega

theorem toInt16_bytes (v b0 b1 : Int) (h0 : b0 = v / 2 ^ 8 % 256) (h1 : b1 = v % 256) :
    toInt16 (b0 * 2 ^ 8 + b1) = toInt16 v := by
  rw [bytes16_val v b0 b1 h0 h1]
  unfold toInt16
  omega

theorem toInt32_bytes (v b0 b1 b2 b3 : Int) (h0 : b0 = v / 2 ^ 24 % 256)
    (h1 : b1 = v / 2 ^ 16 % 256) (h2 : b2 = v / 2 ^ 8 % 256) (h3 : b3 = v % 256) :
    toInt32 (b0 * 2 ^ 24 + b1 * 2 ^ 16 + b2 * 2 ^ 8 + b3) = toInt32 v := by
  rw [bytes32_val v b0 b1 b2 b3 h0 h1 h2 h3]
  unfold toInt32
  omega

theorem toInt64_bytes (v b0 b1 b2 b3 b4 b5 b6 b7 : Int) (h0 : b0 = v / 2 ^ 56 % 256)
    (h1 : b1 = v / 2 ^ 48 % 256) (h2 : b2 = v / 2 ^ 40 % 256) (h3 : b3 = v / 2 ^ 32 % 256)
    (h4 : b4 = v / 2 ^ 24 % 256) (h5 : b5 = v / 2 ^ 16 % 256) (h6 : b6 = v / 2 ^ 8 % 256)
    (h7 : b7 = v % 256) :
    toInt64 (b0 * 2 ^ 56 + b1 * 2 ^ 48 + b2 * 2 ^ 40 + b3 * 2 ^ 32 + b4 * 2 ^ 24 + b5 * 2 ^ 16
      + b6 * 2 ^ 8 + b7) = toInt64 v := by
  rw [bytes64_val v b0 b1 b2 b3 b4 b5 b6 b7 h0 h1 h2 h3 h4 h5 h6 h7]
  unfold toInt64
  omega

theorem ToInt16_Int16ToBytes (v : Int) : ToInt16 (Int16ToBytes v) = some (toInt16 v) := by
  rw [Int16ToBytes, ToInt16_two]
  refine congrArg some ?_
  push_cast
  exact toInt16_bytes v _ _ (toByte_val _) (toByte_val _)

theorem ToInt32_Int32ToBytes (v : Int) : ToInt32 (Int32ToBytes v) = some (toInt32 v) := by
  rw [Int32ToBytes, ToInt32_four]
  refine congrArg some ?_
  push_cast
  exact toInt32_bytes v _ _ _ _ (toByte_val _) (toByte_val _) (toByte_val _) (toByte_val _)

theorem ToInt64_Int64ToBytes (v : Int) : ToInt64 (Int64ToBytes v) = some (toInt64 v) := by
  rw [Int64ToBytes, ToInt64_eight]
  refine congrArg some ?_
  push_cast
  exact toInt64_bytes v _ _ _ _ _ _ _ _ (toByte_val _) (toByte_val _) (toByte_val _)
    (toByte_val _) (toByte_val _) (toByte_val _) (toByte_val _) (toByte_val _)

theorem padLoop_fuel (w : Nat) :
    ∀ (fuel i : Nat) (b : List Byte), w ≤ i + fuel →
      padLoop w (fuel + 1) i b = padLoop w fuel i b := by
  intro fuel
  induction fuel with
  | zero =>
    intro i b h
    have hn : ¬ i < w - b.length := by omega
    simp [padLoop, hn]
  | succ fuel ih =>
    intro i b h
    conv_lhs => rw [padLoop]
    conv_rhs => rw [padLoop]
    split_ifs with hc
    · exact ih (i + 1) (0 :: b) (by omega)
    · rfl

theorem toInt16_of_range (v : Int) (h1 : -32768 ≤ v) (h2 : v < 32768) : toInt16 v = v := by
  unfold toInt16
  omega

theorem toInt32_of_range (v : Int) (h1 : -2147483648 ≤ v) (h2 : v < 2147483648) :
    toInt32 v = v := by
  unfold toInt32
  omega

theorem toInt64_of_range (v : Int) (h1 : -9223372036854775808 ≤ v)
    (h2 : v < 9223372036854775808) : toInt64 v = v := by
  unfold toInt64
  omega

theorem startsWithLoop_eq (srcBytes prefixBytes : List Byte) :
    ∀ (todo i : Nat), todo + i = prefixBytes.length →
      startsWithLoop srcBytes prefixBytes todo i
        = matchFrom (srcBytes.drop i) (prefixBytes.drop i) := by
  intro todo
  induction todo with
  | zero =>
    intro i h
    have hd : prefixBytes.drop i = [] := List.drop_eq_nil_of_le (by omega)
    simp [startsWithLoop, hd, matchFrom]
  | succ todo ih =>
    intro i h
    have hi : i < prefixBytes.length := by omega
    rw [startsWithLoop, List.drop_eq_getElem_cons hi]
    by_cases hs : i < srcBytes.length
    · rw [List.drop_eq_getElem_cons hs]
      simp only [List.get?_eq_getElem?, List.getElem?_eq_getElem hi, List.getElem?_eq_getElem hs,
        matchFrom]
      rw [ih (i + 1) (by omega)]
    · have hd : srcBytes.drop i = [] := List.drop_eq_nil_of_le (by omega)
      have hg : srcBytes[i]? = none := List.getElem?_eq_none (by omega)
      simp only [List.get?_eq_getElem?, List.getElem?_eq_getElem hi, hg, hd]
      rfl

theorem equalsLoop_eq (bytes1 bytes2 : List Byte) :
    ∀ (todo i : Nat), todo + i = bytes1.length →
      equalsLoop bytes1 bytes2 todo i = matchFrom (bytes2.drop i) (bytes1.drop i) := by
  intro todo
  induction todo with
  | zero =>
    intro i h
    have hd : bytes1.drop i = [] := List.drop_eq_nil_of_le (by omega)
    simp [equalsLoop, hd, matchFrom]
  | succ todo ih =>
    intro i h
    have hi : i < bytes1.length := by omega
    rw [equalsLoop, List.drop_eq_getElem_cons hi]
    by_cases hs : i < bytes2.length
    · rw [List.drop_eq_getElem_cons hs]
      simp only [List.get?_eq_getElem?, List.getElem?_eq_getElem hi, List.getElem?_eq_getElem hs,
        matchFrom]
      rw [ih (i + 1) (by omega)]
    · have hd : bytes2.drop i = [] := List.drop_eq_nil_of_le (by omega)
      have hg : bytes2[i]? = none := List.getElem?_eq_none (by omega)
      simp only [List.get?_eq_getElem?, List.getElem?_eq_getElem hi, hg, hd]
      rfl

theorem matchFrom_of_le :
    ∀ (p s : List Byte), p.length ≤ s.length →
      ∃ r, matchFrom s p = some r ∧
        (r = true ↔ ∀ i, i < p.length → s.get? i = p.get? i) := by
  intro p
  induction p with
  | nil => intro s _; exact ⟨true, by cases s <;> rfl, by simp⟩
  | cons x p ih =>
    intro s hs
    cases s with
    | nil => simp at hs
    | cons y s =>
      have hs2 : p.length ≤ s.length := by simpa using hs
      by_cases hxy : x = y
      · obtain ⟨r, hr, hiff⟩ := ih s hs2
        refine ⟨r, by simp [matchFrom, hxy, hr], ?_⟩
        rw [hiff]
        constructor
        · intro h i hi
          cases i with
          | zero => simp [hxy]
          | succ i => simpa using h i (by simpa using hi)
        · intro h i hi
          simpa using h (i + 1) (by simpa using hi)
      · refine ⟨false, by simp [matchFrom, hxy], ?_⟩
        constructor
        · intro h; cases h
        · intro h
          have h0 := h 0 (by simp)
          simp at h0
          exact absurd h0.symm hxy

theorem matchFrom_of_gt :
    ∀ (p s : List Byte), s.length < p.length →
      (matchFrom s p = none ↔ p.take s.length = s) ∧
      (p.take s.length ≠ s → matchFrom s p = some false) := by
  intro p
  induction p with
  | nil => intro s hs; simp at hs
  | cons x p ih =>
    intro s hs
    cases s with
    | nil => simp [matchFrom]
    | cons y s =>
      have hs2 : s.length < p.length := by simpa using hs
      obtain ⟨h1, h2⟩ := ih s hs2
      by_cases hxy : x = y
      · subst hxy
        simp only [matchFrom, ne_eq, not_true_eq_false, if_false, List.length_cons, List.take_succ_cons,
          List.cons.injEq, true_and]
        exact ⟨h1, h2⟩
      · simp [matchFrom, hxy]

theorem Equals_eq (bytes1 bytes2 : Slice) :
    Equals bytes1 bytes2 = some (decide (bytes1.bytes = bytes2.bytes)) := by
  unfold Equals
  by_cases heq : bytes1.bytes = bytes2.bytes
  · simp [heq]
  · rw [if_neg heq]
    have hd : decide (bytes1.bytes = bytes2.bytes) = false := by simp [heq]
    rw [hd]
    split_ifs with hnil hlen
    · rfl
    · rfl
    · have hl : bytes1.bytes.length = bytes2.bytes.length := by simpa using hlen
      rw [equalsLoop_eq bytes1.bytes bytes2.bytes bytes1.bytes.length 0 (by simp)]
      simp only [List.drop_zero]
      obtain ⟨r, hr, hiff⟩ := matchFrom_of_le bytes1.bytes bytes2.bytes (by omega)
      rw [hr]
      cases r with
      | false => rfl
      | true =>
        exfalso
        apply heq
        apply List.ext_get?
        intro n
        by_cases hn : n < bytes1.bytes.length
        · exact (hiff.mp rfl n hn).symm
        · rw [List.get?_eq_none.mpr (by omega), List.get?_eq_none.mpr (by omega)]

/-! ## The claims -/

/-- C2: a repeatable field that is not a byte blob and holds the elements `xs`
(`n = xs.length`), reached by the field loop of `Encode` with buffer `B`: for `n > 1`
the loop goes on with `B`, the array header of `n` and the element encodings in index
order; for `n = 1` with `B` and the one element encoding, no header; for `n = 0` with
`B` alone. -/
theorem Encode_repeated_field (E : Encoders) (cdc : Codec) (typeName : String)
    (pre post : List Field) (f : Field) (xs : List Value) (B : List Byte)
    (hrep : (E.resolve f.tField).repeatable = true)
    (hblob : (E.resolve f.tField).primitiveType ≠ E.PRIMITIVETYPE_BYTES)
    (hlen : f.vField.Len = some xs.length)
    (hidx : ∀ j, j < xs.length → f.vField.Index j = xs.get? j)
    (hpre : encodeFields E cdc pre
      (E.encodeHeader cdc (Value.struct typeName (pre ++ f :: post))) = .next B) :
    (xs.length > 1 →
      Codec.Encode E cdc (Value.struct typeName (pre ++ f :: post))
        = (encodeFields E cdc post
            (B ++ E.encodeArrayHeader cdc xs.length
               ++ xs.flatMap (encodeElement E cdc (E.resolve f.tField)))).toResult) ∧
    (∀ x, xs = [x] →
      Codec.Encode E cdc (Value.struct typeName (pre ++ f :: post))
        = (encodeFields E cdc post
            (B ++ encodeElement E cdc (E.resolve f.tField) x)).toResult) ∧
    (xs = [] →
      Codec.Encode E cdc (Value.struct typeName (pre ++ f :: post))
        = (encodeFields E cdc post B).toResult) := by
  have hres := resolve_repeatable_err E f.tField hrep
  have hf := encodeField_repeated E cdc f B xs hres hblob hrep hlen hidx
  have hE := Encode_at_field E cdc typeName pre post f B _ hpre hf
  refine ⟨?_, ?_, ?_⟩
  · intro hn
    rw [hE]; simp [hn]
  · intro x hx
    subst hx
    rw [hE]; simp
  · intro hx
    subst hx
    rw [hE]; simp

theorem Encode_repeated_field_witness :
    Codec.Encode specEncoders cdc1 (Value.struct "T" ([fA] ++ fC :: [fB]))
      = (encodeFields specEncoders cdc1 [fB]
          ([0, 0, 3, 233, 0, 0, 0, 1] ++ [0, 0, 0, 2]
            ++ [Value.int .int16 5, Value.int .int16 6].flatMap
                (encodeElement specEncoders cdc1 (specEncoders.resolve fC.tField)))).toResult :=
  (Encode_repeated_field specEncoders cdc1 "T" [fA] [fB] fC
    [Value.int .int16 5, Value.int .int16 6] [0, 0, 3, 233, 0, 0, 0, 1]
    (by decide) (by decide) (by decide) (by intro j _; rfl) (by decide)).1
    (by decide)

/-- C3: a field whose primitive type is the byte-blob kind and whose value holds the
bytes `b`, reached by the field loop of `Encode` with buffer `B`: the loop goes on
with `B` and the single unit `encodeBytes(b)`, whatever the repeatable tag `rep` of
the field is (absent, "true" or any other value). -/
theorem Encode_blob_field (E : Encoders) (cdc : Codec) (typeName : String)
    (pre post : List Field) (f : Field) (b B : List Byte) (rep : Option String)
    (hres : (E.resolve f.tField).err = none)
    (hblob : (E.resolve f.tField).primitiveType = E.PRIMITIVETYPE_BYTES)
    (hb : f.vField.Bytes = some b)
    (hpre : encodeFields E cdc pre
      (E.encodeHeader cdc (Value.struct typeName
        (pre ++ ⟨⟨f.tField.Name, { f.tField.Tag with TAG_REPEATABLE := rep }⟩, f.vField⟩ :: post)))
      = .next B) :
    Codec.Encode E cdc (Value.struct typeName
        (pre ++ ⟨⟨f.tField.Name, { f.tField.Tag with TAG_REPEATABLE := rep }⟩, f.vField⟩ :: post))
      = (encodeFields E cdc post (B ++ E.encodeBytes cdc b)).toResult := by
  have hr := resolve_repeatable_tag E f.tField rep
  refine Encode_at_field E cdc typeName pre post _ B _ hpre ?_
  exact encodeField_blob E cdc _ B b (by rw [hr.1]; exact hres) (by rw [hr.2]; exact hblob) hb

theorem Encode_blob_field_witness :
    Codec.Encode specEncoders cdc1 (Value.struct "T" [fA, fD, fB])
        = some ⟨[0, 0, 3, 233, 0, 0, 0, 1, 0, 0, 0, 2, 7, 8, 1], none⟩ ∧
    Codec.Encode specEncoders cdc1 (Value.struct "T"
        [fA, ⟨⟨"D", { fD.tField.Tag with TAG_REPEATABLE := none }⟩, fD.vField⟩, fB])
        = some ⟨[0, 0, 3, 233, 0, 0, 0, 1, 0, 0, 0, 2, 7, 8, 1], none⟩ :=
  ⟨Encode_blob_field specEncoders cdc1 "T" [fA] [fB] fD [7, 8] [0, 0, 3, 233, 0, 0, 0, 1]
      (some "true") (by decide) (by decide) (by decide) (by decide),
   Encode_blob_field specEncoders cdc1 "T" [fA] [fB] fD [7, 8] [0, 0, 3, 233, 0, 0, 0, 1]
      none (by decide) (by decide) (by decide) (by decide)⟩


/-- C1, as the code has it: for every record whose fields conform to their schema and
resolve, `Encode` returns the header followed by the per-field encodings in
declaration order (field 0 first) and no error; the value of a parseable order tag
has no influence on the bytes of its field. -/
theorem Encode_declaration_order (E : Encoders) (cdc : Codec) (typeName : String)
    (fs : List Field)
    (hc : ∀ f ∈ fs, f.Conforms E)
    (hres : ∀ f ∈ fs, (E.resolve f.tField).err = none) :
    Codec.Encode E cdc (Value.struct typeName fs)
      = some ⟨E.encodeHeader cdc (Value.struct typeName fs) ++ fs.flatMap (fieldWire E cdc), none⟩ ∧
    ∀ f ∈ fs, ∀ s : String, (Atoi s).2 = none →
      fieldWire E cdc ⟨⟨f.tField.Name, { f.tField.Tag with TAG_ORDER := some s }⟩, f.vField⟩
        = fieldWire E cdc f := by
  constructor
  · rw [Encode_conforms E cdc typeName fs hc]
    have hnone : fs.findSome? (fun f => (E.resolve f.tField).err) = none := by
      rw [List.findSome?_eq_none_iff]
      exact hres
    rw [hnone]
  · intro f hf s hs
    refine fieldWire_order_tag E cdc f s ?_ hs
    have h := hres f hf
    revert h
    simp only [Encoders.resolve, resolveTags]
    split_ifs with h1 <;> simp_all

theorem Encode_declaration_order_witness :
    Codec.Encode specEncoders cdc1 recSwapped
      = some ⟨[0, 0, 3, 233] ++ ([1] ++ ([0, 0, 0, 17] ++ [])), none⟩ :=
  (Encode_declaration_order specEncoders cdc1 "T" [fFlag true, fCount 17]
    (by decide) (by decide)).1

/-- C1 fails as stated: the two fields of the scenario record carry the distinct
order tags 0 and 1; with their declaration positions exchanged the encoded bytes
change, and the field with order 1 comes before the field with order 0. -/
theorem Encode_order_tag_counterexample :
    (specEncoders.resolve (fCount 17).tField).order = 0 ∧
    (specEncoders.resolve (fFlag true).tField).order = 1 ∧
    List.Perm [fFlag true, fCount 17] [fCount 17, fFlag true] ∧
    Codec.Encode specEncoders cdc1 recScenario
      = some ⟨[0, 0, 3, 233, 0, 0, 0, 17, 1], none⟩ ∧
    Codec.Encode specEncoders cdc1 recSwapped
      = some ⟨[0, 0, 3, 233, 1, 0, 0, 0, 17], none⟩ ∧
    Codec.Encode specEncoders cdc1 recSwapped ≠ Codec.Encode specEncoders cdc1 recScenario :=
  ⟨by decide, by decide, List.Perm.swap _ _ _, by decide, by decide, by decide⟩

/-- C4, as the code has it: under a fixed registry the result of `Encode` is
determined by the header bytes of the record, the tags of its fields and the values
of its fields, field by field in declaration order: two records that agree on these
have the same result (the same bytes, the same error, or a panic alike). Two runs on
the same record are the case of a record and itself. -/
theorem Encode_deterministic (E : Encoders) (cdc : Codec) (typeName typeName2 : String)
    (fs gs : List Field)
    (hmap : gs.map (fun f => (f.tField.Tag, f.vField))
      = fs.map (fun f => (f.tField.Tag, f.vField)))
    (hhead : E.encodeHeader cdc (Value.struct typeName2 gs)
      = E.encodeHeader cdc (Value.struct typeName fs)) :
    Codec.Encode E cdc (Value.struct typeName2 gs)
      = Codec.Encode E cdc (Value.struct typeName fs) := by
  simp only [Codec.Encode, hhead, encodeFields_congr E cdc gs fs _ hmap]

theorem Encode_deterministic_witness :
    Codec.Encode specEncoders cdc1
        (Value.struct "T" [⟨⟨"Renamed", (fCount 17).tField.Tag⟩, .int .int32 17⟩, fFlag true])
      = Codec.Encode specEncoders cdc1 (Value.struct "T" [fCount 17, fFlag true]) :=
  Encode_deterministic specEncoders cdc1 "T" "T" [fCount 17, fFlag true]
    [⟨⟨"Renamed", (fCount 17).tField.Tag⟩, .int .int32 17⟩, fFlag true] rfl (by decide)

/-- C4 fails as stated: the records `recScenario` of type `T` and `recScenarioU` of
type `U` have the same fields, with the same tags and the same values, and are
encoded under the same registry, yet their encodings differ: the header depends on
the type of the record. -/
theorem Encode_type_counterexample :
    recScenario = Value.struct "T" [fCount 17, fFlag true] ∧
    recScenarioU = Value.struct "U" [fCount 17, fFlag true] ∧
    Codec.Encode specEncoders cdc3 recScenario
      = some ⟨[0, 0, 3, 233, 0, 0, 0, 17, 1], none⟩ ∧
    Codec.Encode specEncoders cdc3 recScenarioU
      = some ⟨[0, 0, 3, 235, 0, 0, 0, 17, 1], none⟩ ∧
    Codec.Encode specEncoders cdc3 recScenarioU ≠ Codec.Encode specEncoders cdc3 recScenario :=
  ⟨rfl, rfl, by decide, by decide, by decide⟩

/-- C5, as the code has it: `Encode` returns (no reflection call panics) exactly when
every field that precedes the first field on which `resolveTags` fails (every field,
when none fails) conforms to its schema. Whenever it returns, its error is non-nil
exactly when `resolveTags` fails for some field; it is then the error of the first
failing field in iteration order and the buffer is nil; when no field fails, the
error is nil. -/
theorem Encode_error_iff (E : Encoders) (cdc : Codec) (typeName : String) (fs : List Field) :
    (Codec.Encode E cdc (Value.struct typeName fs) ≠ none ↔
      ∀ f ∈ encodedFields E fs, f.Conforms E) ∧
    (∀ res, Codec.Encode E cdc (Value.struct typeName fs) = some res →
      (res.err ≠ none ↔ ∃ f ∈ fs, (E.resolve f.tField).err ≠ none) ∧
      res.err = fs.findSome? (fun f => (E.resolve f.tField).err) ∧
      (res.err ≠ none → res.buf = []) ∧
      ((∀ f ∈ fs, (E.resolve f.tField).err = none) → res.err = none)) := by
  have hE := Encode_outcome E cdc typeName fs
  by_cases hc : ∀ f ∈ encodedFields E fs, f.Conforms E
  · rw [if_pos hc] at hE
    cases hfind : fs.findSome? (fun f => (E.resolve f.tField).err) with
    | none =>
      rw [hfind] at hE
      refine ⟨⟨fun _ => hc, fun _ => by rw [hE]; simp⟩, ?_⟩
      intro res hres
      rw [hE, Option.some.injEq] at hres
      subst hres
      rw [List.findSome?_eq_none_iff] at hfind
      refine ⟨?_, rfl, fun h => absurd rfl h, fun _ => rfl⟩
      constructor
      · intro h; exact absurd rfl h
      · rintro ⟨f, hf, hne⟩; exact absurd (hfind f hf) hne
    | some e =>
      rw [hfind] at hE
      refine ⟨⟨fun _ => hc, fun _ => by rw [hE]; simp⟩, ?_⟩
      intro res hres
      rw [hE, Option.some.injEq] at hres
      subst hres
      refine ⟨?_, rfl, fun _ => rfl, ?_⟩
      · constructor
        · intro _
          obtain ⟨f, hf, hfe⟩ := List.exists_of_findSome?_eq_some hfind
          exact ⟨f, hf, by rw [hfe]; simp⟩
        · intro _; simp
      · intro hall
        rw [List.findSome?_eq_none_iff.mpr hall] at hfind
        cases hfind
  · rw [if_neg hc] at hE
    refine ⟨⟨fun h => absurd hE h, fun h => absurd h hc⟩, ?_⟩
    intro res hres
    rw [hE] at hres
    cases hres

theorem Encode_error_iff_witness :
    (Codec.Encode specEncoders cdc1 (Value.struct "T" [fCount 17, fBadOrder, fRepeatScalar])
      ≠ none) ∧
    ((⟨[], some ⟨"Atoi", "x1", .ErrSyntax⟩⟩ : EncodeResult).err
      = [fCount 17, fBadOrder, fRepeatScalar].findSome?
          (fun f => (specEncoders.resolve f.tField).err)) :=
  ⟨(Encode_error_iff specEncoders cdc1 "T" [fCount 17, fBadOrder, fRepeatScalar]).1.mpr
      (by decide),
   ((Encode_error_iff specEncoders cdc1 "T" [fCount 17, fBadOrder, fRepeatScalar]).2
      ⟨[], some ⟨"Atoi", "x1", .ErrSyntax⟩⟩ (by decide)).2.1⟩

/-- C5 fails as stated: `resolveTags` fails for the second field of this record, yet
`Encode` returns no error: the first field is marked repeatable and holds a single
integer, so the call `Len` on it panics before the second field is reached. -/
theorem Encode_panic_counterexample :
    (specEncoders.resolve fBadOrder.tField).err = some ⟨"Atoi", "x1", .ErrSyntax⟩ ∧
    (specEncoders.resolve fRepeatScalar.tField).err = none ∧
    (specEncoders.resolve fRepeatScalar.tField).repeatable = true ∧
    fRepeatScalar.vField.Len = none ∧
    Codec.Encode specEncoders cdc1 (Value.struct "T" [fRepeatScalar, fBadOrder]) = none :=
  ⟨by decide, by decide, by decide, rfl, by decide⟩

/-- C6: `resolveTags` returns an error whenever the order tag, the refContract tag or
the refEnum tag is present with a value that `strconv.Atoi` rejects; when each of the
three is absent or accepted, the returned order, refContract and refEnum are the
parsed integers, and 0 for an absent tag. -/
theorem resolveTags_integer_tags (NONE : NumberMask) (G : String → NumberMask)
    (field : StructField) :
    (∀ s, field.Tag.TAG_ORDER = some s → (Atoi s).2 ≠ none →
      (resolveTags NONE G field).err ≠ none) ∧
    (∀ s, field.Tag.TAG_REFCONTRACT = some s → (Atoi s).2 ≠ none →
      (resolveTags NONE G field).err ≠ none) ∧
    (∀ s, field.Tag.TAG_REFENUM = some s → (Atoi s).2 ≠ none →
      (resolveTags NONE G field).err ≠ none) ∧
    ((∀ s, field.Tag.TAG_ORDER = some s → (Atoi s).2 = none) →
     (∀ s, field.Tag.TAG_REFCONTRACT = some s → (Atoi s).2 = none) →
     (∀ s, field.Tag.TAG_REFENUM = some s → (Atoi s).2 = none) →
      (resolveTags NONE G field).order
        = (match field.Tag.TAG_ORDER with | some s => (Atoi s).1 | none => 0) ∧
      (resolveTags NONE G field).refContract
        = (match field.Tag.TAG_REFCONTRACT with | some s => (Atoi s).1 | none => 0) ∧
      (resolveTags NONE G field).refEnum
        = (match field.Tag.TAG_REFENUM with | some s => (Atoi s).1 | none => 0)) := by
  refine ⟨?_, ?_, ?_, ?_⟩
  · intro s hs hbad
    obtain ⟨e, he⟩ := Option.ne_none_iff_exists'.mp hbad
    have he2 : (atoiTag field.Tag.TAG_ORDER).2 = some e := by rw [hs]; exact he
    simp [resolveTags, he2]
  · intro s hs hbad
    obtain ⟨e, he⟩ := Option.ne_none_iff_exists'.mp hbad
    have he2 : (atoiTag field.Tag.TAG_REFCONTRACT).2 = some e := by rw [hs]; exact he
    simp only [resolveTags, he2]
    split_ifs <;> intro hx <;> simp_all
  · intro s hs hbad
    obtain ⟨e, he⟩ := Option.ne_none_iff_exists'.mp hbad
    have he2 : (atoiTag field.Tag.TAG_REFENUM).2 = some e := by rw [hs]; exact he
    simp only [resolveTags, he2]
    split_ifs <;> intro hx <;> simp_all
  · intro ho hc he
    have ho2 : (atoiTag field.Tag.TAG_ORDER).2 = none := by
      cases h : field.Tag.TAG_ORDER with
      | none => rfl
      | some s => exact ho s h
    have hc2 : (atoiTag field.Tag.TAG_REFCONTRACT).2 = none := by
      cases h : field.Tag.TAG_REFCONTRACT with
      | none => rfl
      | some s => exact hc s h
    have he2 : (atoiTag field.Tag.TAG_REFENUM).2 = none := by
      cases h : field.Tag.TAG_REFENUM with
      | none => rfl
      | some s => exact he s h
    simp only [resolveTags, ho2, hc2, he2]
    refine ⟨?_, ?_, ?_⟩ <;> split_ifs <;>
      first
        | (cases field.Tag.TAG_ORDER <;> rfl)
        | (cases field.Tag.TAG_REFCONTRACT <;> rfl)
        | (cases field.Tag.TAG_REFENUM <;> rfl)
        | simp_all

theorem resolveTags_integer_tags_witness :
    (resolveTags 0 (fun _ => 0) ⟨"F", { TAG_ORDER := some "7x" }⟩).err ≠ none ∧
    (resolveTags 0 (fun _ => 0) ⟨"F", { TAG_REFCONTRACT := some "" }⟩).err ≠ none ∧
    (resolveTags 0 (fun _ => 0) ⟨"F", { TAG_REFENUM := some "9223372036854775808" }⟩).err ≠ none ∧
    (resolveTags 0 (fun _ => 0)
      ⟨"F", { TAG_ORDER := some "3", TAG_REFCONTRACT := some "-12", TAG_MAXSIZE := some "?" }⟩).order = 3 ∧
    (resolveTags 0 (fun _ => 0)
      ⟨"F", { TAG_ORDER := some "3", TAG_REFCONTRACT := some "-12", TAG_MAXSIZE := some "?" }⟩).refContract
        = -12 ∧
    (resolveTags 0 (fun _ => 0)
      ⟨"F", { TAG_ORDER := some "3", TAG_REFCONTRACT := some "-12", TAG_MAXSIZE := some "?" }⟩).refEnum = 0 :=
  ⟨(resolveTags_integer_tags 0 (fun _ => 0) ⟨"F", { TAG_ORDER := some "7x" }⟩).1 "7x" rfl (by decide),
   (resolveTags_integer_tags 0 (fun _ => 0) ⟨"F", { TAG_REFCONTRACT := some "" }⟩).2.1 "" rfl
      (by decide),
   (resolveTags_integer_tags 0 (fun _ => 0)
      ⟨"F", { TAG_REFENUM := some "9223372036854775808" }⟩).2.2.1 "9223372036854775808" rfl
      (by decide),
   (resolveTags_integer_tags 0 (fun _ => 0)
      ⟨"F", { TAG_ORDER := some "3", TAG_REFCONTRACT := some "-12", TAG_MAXSIZE := some "?" }⟩).2.2.2
      (by decide) (by decide) (by decide)⟩


/-- C7, as the code has it: a record in which two distinct fields carry the same
explicit order value is encoded like any other: when its fields conform to their
schema and every field resolves, `Encode` returns a buffer and a nil error. -/
theorem Encode_duplicate_order (E : Encoders) (cdc : Codec) (typeName : String)
    (fs : List Field) (i j : Nat) (f g : Field)
    (hc : ∀ f ∈ fs, f.Conforms E)
    (hres : ∀ f ∈ fs, (E.resolve f.tField).err = none) :
    i ≠ j → fs.get? i = some f → fs.get? j = some g →
    f.tField.Tag.TAG_ORDER ≠ none → g.tField.Tag.TAG_ORDER ≠ none →
    (E.resolve f.tField).order = (E.resolve g.tField).order →
    ∃ buf, Codec.Encode E cdc (Value.struct typeName fs) = some ⟨buf, none⟩ := by
  intro _ _ _ _ _ _
  refine ⟨E.encodeHeader cdc (Value.struct typeName fs) ++ fs.flatMap (fieldWire E cdc), ?_⟩
  rw [Encode_conforms E cdc typeName fs hc, List.findSome?_eq_none_iff.mpr hres]

theorem Encode_duplicate_order_witness :
    ∃ buf, Codec.Encode specEncoders cdc1 recDuplicateOrder = some ⟨buf, none⟩ :=
  Encode_duplicate_order specEncoders cdc1 "T" [fCount 17, fFlagAtZero] 0 1 (fCount 17)
    fFlagAtZero (by decide) (by decide) (by decide) rfl rfl (by decide) (by decide) (by decide)

/-- C7 fails as stated: the two fields of `recDuplicateOrder` are distinct and both
carry the explicit order tag 0, and `Encode` returns a buffer and a nil error. -/
theorem Encode_duplicate_order_counterexample :
    (fCount 17).tField.Name ≠ fFlagAtZero.tField.Name ∧
    (fCount 17).tField.Tag.TAG_ORDER = some "0" ∧
    fFlagAtZero.tField.Tag.TAG_ORDER = some "0" ∧
    (specEncoders.resolve (fCount 17).tField).order = 0 ∧
    (specEncoders.resolve fFlagAtZero.tField).order = 0 ∧
    Codec.Encode specEncoders cdc1 recDuplicateOrder
      = some ⟨[0, 0, 3, 233, 0, 0, 0, 17, 1], none⟩ :=
  ⟨by decide, rfl, rfl, by decide, by decide, by decide⟩

/-- C8: `RegisterContract` writes `contract` at `code` of the contract map, whatever
was there, keeps every other code of that map and leaves the enum and generic maps
alone; `RegisterEnum` does the same on the enum map; of two registrations under one
code the second stays. -/
theorem Register_insert_or_overwrite (c : Codec) (code : Int) (d d2 : Value) :
    ((c.RegisterContract code d).contractMap.get code = some d ∧
     (∀ k, k ≠ code → (c.RegisterContract code d).contractMap.get k = c.contractMap.get k) ∧
     (c.RegisterContract code d).enumMap = c.enumMap ∧
     (c.RegisterContract code d).GenericMap = c.GenericMap) ∧
    ((c.RegisterEnum code d).enumMap.get code = some d ∧
     (∀ k, k ≠ code → (c.RegisterEnum code d).enumMap.get k = c.enumMap.get k) ∧
     (c.RegisterEnum code d).contractMap = c.contractMap ∧
     (c.RegisterEnum code d).GenericMap = c.GenericMap) ∧
    ((c.RegisterContract code d).RegisterContract code d2).contractMap.get code = some d2 ∧
    ((c.RegisterEnum code d).RegisterEnum code d2).enumMap.get code = some d2 :=
  ⟨⟨GoMap.get_set_self _ _ _, fun _ hk => GoMap.get_set_other _ _ _ _ hk, rfl, rfl⟩,
   ⟨GoMap.get_set_self _ _ _, fun _ hk => GoMap.get_set_other _ _ _ _ hk, rfl, rfl⟩,
   GoMap.get_set_self _ _ _, GoMap.get_set_self _ _ _⟩

theorem Register_insert_or_overwrite_witness :
    (cdc1.RegisterContract 7 (recInner 0)).contractMap.get 1001 = cdc1.contractMap.get 1001 :=
  (Register_insert_or_overwrite cdc1 7 (recInner 0) (recInner 0)).1.2.1 1001 (by decide)

/-- C9, as the code has it: `Decode` has an empty body, so whatever bytes it is given
(those of `Encode(v)` among them) the target and the registry after the call are the
target and the registry before it; the target equals `v` afterwards exactly when it
did before. -/
theorem Decode_leaves_target (E : Encoders) (cdc : Codec) (v target : Value)
    (data : List Byte) :
    cdc.Decode data target = (cdc, target) ∧
    (∀ res, Codec.Encode E cdc v = some res → (cdc.Decode res.buf target).2 = target) ∧
    ((cdc.Decode data target).2 = v ↔ target = v) :=
  ⟨rfl, fun _ _ => rfl, Iff.rfl⟩

theorem Decode_leaves_target_witness :
    (cdc1.Decode [0, 0, 3, 233, 0, 0, 0, 17, 1] recFresh).2 = recFresh :=
  (Decode_leaves_target specEncoders cdc1 recScenario recFresh []).2.1
    ⟨[0, 0, 3, 233, 0, 0, 0, 17, 1], none⟩ (by decide)

/-- C9 fails as stated: the scenario record `{17, true}` has no generic or contract
reference and encodes to nine bytes; decoding them into a fresh target of the same
type leaves the target at its zero values, which is not the record. -/
theorem Decode_roundtrip_counterexample :
    Codec.Encode specEncoders cdc1 recScenario
      = some ⟨[0, 0, 3, 233, 0, 0, 0, 17, 1], none⟩ ∧
    (cdc1.Decode [0, 0, 3, 233, 0, 0, 0, 17, 1] recFresh).2 = recFresh ∧
    (cdc1.Decode [0, 0, 3, 233, 0, 0, 0, 17, 1] recFresh).2 ≠ recScenario := by
  refine ⟨by decide, rfl, ?_⟩
  simp [Codec.Decode, recFresh, recScenario, fCount, fFlag]

/-- C10, as the code has it: for a field that is not a byte blob, not repeatable and
not generic and that references a contract code, the loop of `Encode` goes on with
the buffer `B` it reached the field with and `encodeContract(refContract)`: bytes
that depend on the registry and the declared reference code, and are the same for
every value `v` held in the field. -/
theorem Encode_contract_field (E : Encoders) (cdc : Codec) (typeName : String)
    (pre post : List Field) (tField : StructField) (v : Value) (B : List Byte)
    (hres : (E.resolve tField).err = none)
    (hblob : (E.resolve tField).primitiveType ≠ E.PRIMITIVETYPE_BYTES)
    (hrep : (E.resolve tField).repeatable = false)
    (hgen : (E.resolve tField).genericContract = false)
    (href : (E.resolve tField).refContract ≠ 0)
    (hpre : encodeFields E cdc pre
      (E.encodeHeader cdc (Value.struct typeName (pre ++ ⟨tField, v⟩ :: post))) = .next B) :
    Codec.Encode E cdc (Value.struct typeName (pre ++ ⟨tField, v⟩ :: post))
      = (encodeFields E cdc post
          (B ++ E.encodeContract cdc (E.resolve tField).refContract)).toResult := by
  refine Encode_at_field E cdc typeName pre post _ B _ hpre ?_
  rw [encodeField_single E cdc ⟨tField, v⟩ B hres hblob hrep]
  simp [encodeElement, hgen, href]

theorem Encode_contract_field_witness :
    Codec.Encode specEncoders cdc2 (recOuter (recInner 1))
      = some ⟨[0, 0, 3, 233] ++ [0, 0, 3, 234], none⟩ :=
  Encode_contract_field specEncoders cdc2 "Outer" [] [] (fBody (recInner 1)).tField (recInner 1)
    [0, 0, 3, 233] (by decide) (by decide) (by decide) (by decide) (by decide) (by decide)

/-- C10 fails as stated: the nested records `Inner{1}` and `Inner{2}` encode
differently, yet the two outer records that hold them in a contract-reference field
encode to the same bytes, and the four bytes of the field are not the eight bytes of
the nested record's encoding. -/
theorem Encode_nested_record_counterexample :
    Codec.Encode specEncoders cdc2 (recInner 1) = some ⟨[0, 0, 3, 234, 0, 0, 0, 1], none⟩ ∧
    Codec.Encode specEncoders cdc2 (recInner 2) = some ⟨[0, 0, 3, 234, 0, 0, 0, 2], none⟩ ∧
    (specEncoders.resolve (fBody (recInner 1)).tField).refContract = 1002 ∧
    (specEncoders.resolve (fBody (recInner 1)).tField).genericContract = false ∧
    (specEncoders.resolve (fBody (recInner 1)).tField).repeatable = false ∧
    Codec.Encode specEncoders cdc2 (recOuter (recInner 1))
      = some ⟨[0, 0, 3, 233, 0, 0, 3, 234], none⟩ ∧
    Codec.Encode specEncoders cdc2 (recOuter (recInner 2))
      = some ⟨[0, 0, 3, 233, 0, 0, 3, 234], none⟩ :=
  ⟨by decide, by decide, by decide, by decide, by decide, by decide, by decide⟩

/-- C14: `Int16ToBytes`, `Int32ToBytes` and `Int64ToBytes` return exactly 2, 4 and 8
bytes; byte `i` is `(v >> 8*(w-1-i)) mod 256`, and read as a big-endian number the
bytes are `v mod 2^(8w)`. `Int32ToBytes(1001)` is `00 00 03 E9` and
`Int32ToBytes(17)` is `00 00 00 11`. -/
theorem IntNToBytes_big_endian (v : Int) :
    ((Int16ToBytes v).length = 2 ∧
      (∀ i, i < 2 → ((Int16ToBytes v).get? i).map (fun b => (b.val : Int))
        = some ((v >>> (8 * (2 - 1 - i))) % 256)) ∧
      (((Int16ToBytes v).foldl (fun acc b => acc * 256 + b.val) 0 : Nat) : Int) = v % 2 ^ 16) ∧
    ((Int32ToBytes v).length = 4 ∧
      (∀ i, i < 4 → ((Int32ToBytes v).get? i).map (fun b => (b.val : Int))
        = some ((v >>> (8 * (4 - 1 - i))) % 256)) ∧
      (((Int32ToBytes v).foldl (fun acc b => acc * 256 + b.val) 0 : Nat) : Int) = v % 2 ^ 32) ∧
    ((Int64ToBytes v).length = 8 ∧
      (∀ i, i < 8 → ((Int64ToBytes v).get? i).map (fun b => (b.val : Int))
        = some ((v >>> (8 * (8 - 1 - i))) % 256)) ∧
      (((Int64ToBytes v).foldl (fun acc b => acc * 256 + b.val) 0 : Nat) : Int) = v % 2 ^ 64) ∧
    Int32ToBytes 1001 = [0x00, 0x00, 0x03, 0xE9] ∧
    Int32ToBytes 17 = [0x00, 0x00, 0x00, 0x11] := by
  refine ⟨⟨rfl, ?_, ?_⟩, ⟨rfl, ?_, ?_⟩, ⟨rfl, ?_, ?_⟩, by decide, by decide⟩
  · intro i hi
    interval_cases i <;>
      simp [Int16ToBytes, toByte_val, Int.shiftRight_eq_div_pow]
  · have h0 := toByte_val (v / 2 ^ 8)
    have h1 := toByte_val v
    simp only [Int16ToBytes, List.foldl]
    generalize toByte (v / 2 ^ 8) = x0 at h0 ⊢
    generalize toByte v = x1 at h1 ⊢
    have hv := bytes16_val v _ _ h0 h1
    push_cast
    omega
  · intro i hi
    interval_cases i <;>
      simp [Int32ToBytes, toByte_val, Int.shiftRight_eq_div_pow]
  · have h0 := toByte_val (v / 2 ^ 24)
    have h1 := toByte_val (v / 2 ^ 16)
    have h2 := toByte_val (v / 2 ^ 8)
    have h3 := toByte_val v
    simp only [Int32ToBytes, List.foldl]
    generalize toByte (v / 2 ^ 24) = x0 at h0 ⊢
    generalize toByte (v / 2 ^ 16) = x1 at h1 ⊢
    generalize toByte (v / 2 ^ 8) = x2 at h2 ⊢
    generalize toByte v = x3 at h3 ⊢
    have hv := bytes32_val v _ _ _ _ h0 h1 h2 h3
    push_cast
    omega
  · intro i hi
    interval_cases i <;>
      simp [Int64ToBytes, toByte_val, Int.shiftRight_eq_div_pow]
  · have h0 := toByte_val (v / 2 ^ 56)
    have h1 := toByte_val (v / 2 ^ 48)
    have h2 := toByte_val (v / 2 ^ 40)
    have h3 := toByte_val (v / 2 ^ 32)
    have h4 := toByte_val (v / 2 ^ 24)
    have h5 := toByte_val (v / 2 ^ 16)
    have h6 := toByte_val (v / 2 ^ 8)
    have h7 := toByte_val v
    simp only [Int64ToBytes, List.foldl]
    generalize toByte (v / 2 ^ 56) = x0 at h0 ⊢
    generalize toByte (v / 2 ^ 48) = x1 at h1 ⊢
    generalize toByte (v / 2 ^ 40) = x2 at h2 ⊢
    generalize toByte (v / 2 ^ 32) = x3 at h3 ⊢
    generalize toByte (v / 2 ^ 24) = x4 at h4 ⊢
    generalize toByte (v / 2 ^ 16) = x5 at h5 ⊢
    generalize toByte (v / 2 ^ 8) = x6 at h6 ⊢
    generalize toByte v = x7 at h7 ⊢
    have hv := bytes64_val v _ _ _ _ _ _ _ _ h0 h1 h2 h3 h4 h5 h6 h7
    clear h0 h1 h2 h3 h4 h5 h6 h7
    push_cast
    omega

theorem IntNToBytes_big_endian_witness :
    ((Int32ToBytes 1001).get? 3).map (fun b => (b.val : Int))
      = some (((1001 : Int) >>> (8 * (4 - 1 - 3))) % 256) :=
  (IntNToBytes_big_endian 1001).2.1.2.1 3 (by decide)

/-- C15: the fixed-width conversions round-trip: `ToInt16(Int16ToBytes(v)) = v` for
every int16 `v`, likewise at 32 and 64 bits, negative values included;
`ToInt8(Int8ToBytes(v)) = v` for every int8 `v`; `ToBoolean(BoolToBytes(b)) = b`. -/
theorem fixed_width_round_trip :
    (∀ v : Int, -2 ^ 15 ≤ v → v < 2 ^ 15 → ToInt16 (Int16ToBytes v) = some v) ∧
    (∀ v : Int, -2 ^ 31 ≤ v → v < 2 ^ 31 → ToInt32 (Int32ToBytes v) = some v) ∧
    (∀ v : Int, -2 ^ 63 ≤ v → v < 2 ^ 63 → ToInt64 (Int64ToBytes v) = some v) ∧
    (∀ v : Int, -2 ^ 7 ≤ v → v < 2 ^ 7 → ToInt8 (Int8ToBytes v) = v) ∧
    (∀ b : Bool, ToBoolean (BoolToBytes b) = b) := by
  refine ⟨?_, ?_, ?_, ?_, ?_⟩
  · intro v h1 h2
    rw [ToInt16_Int16ToBytes, toInt16_of_range v (by omega) (by omega)]
  · intro v h1 h2
    rw [ToInt32_Int32ToBytes, toInt32_of_range v (by omega) (by omega)]
  · intro v h1 h2
    rw [ToInt64_Int64ToBytes, toInt64_of_range v (by omega) (by omega)]
  · intro v h1 h2
    have h := toByte_val v
    unfold ToInt8 Int8ToBytes toInt8
    omega
  · intro b
    cases b <;> decide

theorem fixed_width_round_trip_witness :
    ToInt16 (Int16ToBytes (-2)) = some (-2) ∧
    ToInt32 (Int32ToBytes (-2147483648)) = some (-2147483648) ∧
    ToInt64 (Int64ToBytes (-1)) = some (-1) ∧
    ToInt8 (Int8ToBytes (-128)) = -128 :=
  ⟨fixed_width_round_trip.1 (-2) (by decide) (by decide),
   fixed_width_round_trip.2.1 (-2147483648) (by decide) (by decide),
   fixed_width_round_trip.2.2.1 (-1) (by decide) (by decide),
   fixed_width_round_trip.2.2.2.1 (-128) (by decide) (by decide)⟩

/-- C18, what the code does: `ToInt32` panics on every slice of fewer than 3 bytes
and on no other. On the one-byte slice `[0x11]` the padding loop stops at three
bytes, because its bound `4-len(b)` shrinks while the slice grows, and the 4-byte
read is out of range. -/
theorem ToInt32_short_input :
    (∀ b : List Byte, ToInt32 b = none ↔ b.length < 3) ∧
    padLeft 4 [0x11] = [0x00, 0x00, 0x11] ∧
    ToInt32 [0x11] = none ∧
    ToInt [0x11] = none ∧
    (∀ b0 b1 b2 : Byte, padLeft 4 [b0, b1, b2] = [0x00, b0, b1, b2]) := by
  refine ⟨?_, by decide, by decide, by decide, fun _ _ _ => rfl⟩
  intro b
  rcases b with _ | ⟨b0, _ | ⟨b1, _ | ⟨b2, _ | ⟨b3, rest⟩⟩⟩⟩ <;>
    simp [ToInt32, padLeft, padLoop, bigEndianUint32]

/-- C19: with a 64-bit `int`, `ToInt(IntToBytes(v)) = v` holds exactly for the values
`v ≥ -2^31`; `IntToBytes` returns 4 bytes for every `v ≤ MaxInt32` and 8 bytes for
every `v > MaxInt32`; `ToInt` gives back the int32 conversion of `v` in the first case
and `v` in the second. -/
theorem ToInt_IntToBytes (v : Int) (hlo : -2 ^ 63 ≤ v) (hhi : v < 2 ^ 63) :
    (ToInt (IntToBytes v) = some v ↔ -2 ^ 31 ≤ v) ∧
    (v ≤ 2 ^ 31 - 1 → (IntToBytes v).length = 4 ∧ ToInt (IntToBytes v) = some (toInt32 v)) ∧
    (v > 2 ^ 31 - 1 → (IntToBytes v).length = 8 ∧ ToInt (IntToBytes v) = some v) := by
  have h4 : ∀ x : Int, ToInt (Int32ToBytes x) = some (toInt32 x) := by
    intro x
    have hl : (Int32ToBytes x).length ≤ 4 := by simp [Int32ToBytes]
    rw [ToInt, if_pos hl, ToInt32_Int32ToBytes]
  have h8 : ∀ x : Int, ToInt (Int64ToBytes x) = some (toInt64 x) := by
    intro x
    have hl : ¬ (Int64ToBytes x).length ≤ 4 := by simp [Int64ToBytes]
    rw [ToInt, if_neg hl, ToInt64_Int64ToBytes]
  have hidem : toInt32 (toInt32 v) = toInt32 v := by
    unfold toInt32
    omega
  by_cases hv : v ≤ 2147483647
  · have hb : IntToBytes v = Int32ToBytes (toInt32 v) := by rw [IntToBytes, if_pos hv]
    have hr : ToInt (IntToBytes v) = some (toInt32 v) := by rw [hb, h4, hidem]
    refine ⟨?_, fun _ => ⟨by rw [hb]; rfl, hr⟩, fun h => absurd hv (by omega)⟩
    rw [hr, Option.some.injEq]
    unfold toInt32
    omega
  · have hb : IntToBytes v = Int64ToBytes v := by rw [IntToBytes, if_neg hv]
    have hr : ToInt (IntToBytes v) = some v := by
      rw [hb, h8, toInt64_of_range v (by omega) (by omega)]
    refine ⟨?_, fun h => absurd h (by omega), fun _ => ⟨by rw [hb]; rfl, hr⟩⟩
    rw [hr]
    simp only [true_iff]
    omega

theorem ToInt_IntToBytes_witness :
    (ToInt (IntToBytes (-2147483649)) = some (-2147483649) ↔ -2 ^ 31 ≤ (-2147483649 : Int)) ∧
    ToInt (IntToBytes (-2147483649)) = some (toInt32 (-2147483649)) ∧
    ToInt (IntToBytes 2147483648) = some 2147483648 :=
  ⟨(ToInt_IntToBytes (-2147483649) (by decide) (by decide)).1,
   ((ToInt_IntToBytes (-2147483649) (by decide) (by decide)).2.1 (by decide)).2,
   ((ToInt_IntToBytes 2147483648 (by decide) (by decide)).2.2 (by decide)).2⟩

/-- C17: `Equals` returns, and it returns true exactly when the two slices have the
same length and the same byte at every index, a nil slice counting as the empty
one: `Equals(nil, empty)` is true and `Equals(nil, s)` is false for every non-empty
`s`. `Equals` is reflexive, symmetric and transitive. -/
theorem Equals_spec (bytes1 bytes2 bytes3 : Slice) :
    (∃ r, Equals bytes1 bytes2 = some r ∧
      (r = true ↔ bytes1.bytes.length = bytes2.bytes.length ∧
        ∀ i, i < bytes1.bytes.length → bytes1.bytes.get? i = bytes2.bytes.get? i)) ∧
    Equals none (some []) = some true ∧
    (∀ s : List Byte, s ≠ [] → Equals none (some s) = some false) ∧
    Equals bytes1 bytes1 = some true ∧
    Equals bytes1 bytes2 = Equals bytes2 bytes1 ∧
    (Equals bytes1 bytes2 = some true → Equals bytes2 bytes3 = some true →
      Equals bytes1 bytes3 = some true) := by
  refine ⟨⟨_, Equals_eq bytes1 bytes2, ?_⟩, by decide, ?_, ?_, ?_, ?_⟩
  · rw [decide_eq_true_iff]
    constructor
    · intro h
      rw [h]
      exact ⟨rfl, fun _ _ => rfl⟩
    · rintro ⟨hl, hi⟩
      apply List.ext_get?
      intro n
      by_cases hn : n < bytes1.bytes.length
      · exact hi n hn
      · rw [List.get?_eq_none.mpr (by omega), List.get?_eq_none.mpr (by omega)]
  · intro s hs
    rw [Equals_eq]
    have hne : ¬ (Slice.bytes none = Slice.bytes (some s)) := fun h => hs h.symm
    simp [hne]
  · rw [Equals_eq]
    simp
  · rw [Equals_eq, Equals_eq]
    by_cases h : bytes1.bytes = bytes2.bytes
    · simp [h]
    · have h2 : ¬ bytes2.bytes = bytes1.bytes := fun e => h e.symm
      simp [h, h2]
  · rw [Equals_eq, Equals_eq, Equals_eq]
    intro h12 h23
    simp only [Option.some.injEq, decide_eq_true_eq] at h12 h23 ⊢
    exact h12.trans h23

theorem Equals_spec_witness :
    Equals none (some [7]) = some false ∧
    Equals none (some []) = some true :=
  ⟨(Equals_spec none none none).2.2.1 [7] (by decide),
   (Equals_spec none (some []) (some [])).2.2.2.2.2 (by decide) (by decide)⟩

/-- C20: when the prefix is not longer than `srcBytes`, `StartsWith` returns (no read
is out of range), and it returns true exactly when `srcBytes[i] = prefixBytes[i]` for
every `i < len(prefixBytes)`, so it is true for the empty prefix. When the prefix is
longer, the call panics on an out-of-range read exactly when `srcBytes` is itself the
start of `prefixBytes`, and returns false otherwise. -/
theorem StartsWith_spec (srcBytes prefixBytes : List Byte) :
    (prefixBytes.length ≤ srcBytes.length →
      ∃ r, StartsWith srcBytes prefixBytes = some r ∧
        (r = true ↔ ∀ i, i < prefixBytes.length → srcBytes.get? i = prefixBytes.get? i)) ∧
    StartsWith srcBytes [] = some true ∧
    (srcBytes.length < prefixBytes.length →
      (StartsWith srcBytes prefixBytes = none ↔ prefixBytes.take srcBytes.length = srcBytes) ∧
      (prefixBytes.take srcBytes.length ≠ srcBytes →
        StartsWith srcBytes prefixBytes = some false)) := by
  have h := startsWithLoop_eq srcBytes prefixBytes prefixBytes.length 0 (by simp)
  simp only [List.drop_zero] at h
  refine ⟨?_, rfl, ?_⟩
  · intro hle
    rw [StartsWith, h]
    exact matchFrom_of_le prefixBytes srcBytes hle
  · intro hgt
    rw [StartsWith, h]
    exact matchFrom_of_gt prefixBytes srcBytes hgt

theorem StartsWith_spec_witness :
    (∃ r, StartsWith [1, 2, 3] [1, 2] = some r ∧
      (r = true ↔ ∀ i, i < [(1 : Byte), 2].length →
        [(1 : Byte), 2, 3].get? i = [(1 : Byte), 2].get? i)) ∧
    (StartsWith [1, 2] [1, 2, 3] = none ↔ [(1 : Byte), 2, 3].take [(1 : Byte), 2].length = [1, 2]) ∧
    StartsWith [1, 3] [1, 2, 3] = some false :=
  ⟨(StartsWith_spec [1, 2, 3] [1, 2]).1 (by decide),
   ((StartsWith_spec [1, 2] [1, 2, 3]).2.2 (by decide)).1,
   ((StartsWith_spec [1, 3] [1, 2, 3]).2.2 (by decide)).2 (by decide)⟩

/-- C11, as the code has it: for a field tagged generic that is not a byte blob, every
element is encoded as `encodeGeneric(refContract)`; when the field is not repeatable
and its tags resolve, the round of the field loop appends exactly these bytes, and
two records with the same header bytes that differ only in the value held in the
field have the same result. -/
theorem Encode_generic_field (E : Encoders) (cdc : Codec) (typeName : String)
    (pre post : List Field) (tField : StructField) (v w : Value)
    (hgen : (E.resolve tField).genericContract = true)
    (hblob : (E.resolve tField).primitiveType ≠ E.PRIMITIVETYPE_BYTES)
    (hrep : (E.resolve tField).repeatable = false) :
    (∀ x, encodeElement E cdc (E.resolve tField) x
      = E.encodeGeneric cdc (E.resolve tField).refContract) ∧
    (∀ buf, (E.resolve tField).err = none →
      encodeField E cdc ⟨tField, v⟩ buf
        = .next (buf ++ E.encodeGeneric cdc (E.resolve tField).refContract)) ∧
    (E.encodeHeader cdc (Value.struct typeName (pre ++ ⟨tField, v⟩ :: post))
        = E.encodeHeader cdc (Value.struct typeName (pre ++ ⟨tField, w⟩ :: post)) →
      Codec.Encode E cdc (Value.struct typeName (pre ++ ⟨tField, v⟩ :: post))
        = Codec.Encode E cdc (Value.struct typeName (pre ++ ⟨tField, w⟩ :: post))) := by
  have hel : ∀ x, encodeElement E cdc (E.resolve tField) x
      = E.encodeGeneric cdc (E.resolve tField).refContract := by
    intro x
    simp [encodeElement, hgen]
  have hstep : ∀ (u : Value) (buf : List Byte), (E.resolve tField).err = none →
      encodeField E cdc ⟨tField, u⟩ buf
        = .next (buf ++ E.encodeGeneric cdc (E.resolve tField).refContract) := by
    intro u buf hres
    rw [encodeField_single E cdc ⟨tField, u⟩ buf hres hblob hrep, hel]
  refine ⟨hel, hstep v, ?_⟩
  intro hhead
  refine Encode_middle E cdc typeName _ _ pre post ?_ hhead
  intro buf
  cases hres : (E.resolve tField).err with
  | none => rw [hstep v buf hres, hstep w buf hres]
  | some e =>
    rw [encodeField_abort E cdc ⟨tField, v⟩ buf e hres,
      encodeField_abort E cdc ⟨tField, w⟩ buf e hres]

theorem Encode_generic_field_witness :
    Codec.Encode specEncoders cdc2 (Value.struct "Outer" ([] ++ fGeneric (recInner 1) :: []))
      = Codec.Encode specEncoders cdc2 (Value.struct "Outer" ([] ++ fGeneric (recInner 2) :: [])) :=
  (Encode_generic_field specEncoders cdc2 "Outer" [] [] (fGeneric (recInner 1)).tField
    (recInner 1) (recInner 2) (by decide) (by decide) (by decide)).2.2 (by decide)

/-- C11 fails as stated: the field of these two records is tagged generic and its
primitive type is the byte-blob kind; the records differ only in the bytes held in
the field, and their encodings differ, because the field is encoded as one
`encodeBytes` unit of its value. -/
theorem Encode_generic_blob_counterexample :
    (specEncoders.resolve (fGenericBlob [1]).tField).genericContract = true ∧
    (specEncoders.resolve (fGenericBlob [1]).tField).repeatable = false ∧
    (fGenericBlob [1]).tField = (fGenericBlob [2]).tField ∧
    Codec.Encode specEncoders cdc1 (Value.struct "T" [fGenericBlob [1]])
      = some ⟨[0, 0, 3, 233, 0, 0, 0, 1, 1], none⟩ ∧
    Codec.Encode specEncoders cdc1 (Value.struct "T" [fGenericBlob [2]])
      = some ⟨[0, 0, 3, 233, 0, 0, 0, 1, 2], none⟩ ∧
    specEncoders.encodeGeneric cdc1 (specEncoders.resolve (fGenericBlob [1]).tField).refContract
      = [0, 0, 3, 234] :=
  ⟨by decide, by decide, rfl, by decide, by decide, by decide⟩

/-- C12: `RegisterGeneric` stores nothing: the contract map, the enum map and the
generic map after the call are those before it, and after any sequence of
`RegisterGeneric` calls on the initial registry the generic map is still empty. -/
theorem RegisterGeneric_stores_nothing (c : Codec) (super concrete : Value)
    (calls : List (Value × Value)) :
    (c.RegisterGeneric super concrete).contractMap = c.contractMap ∧
    (c.RegisterGeneric super concrete).enumMap = c.enumMap ∧
    (c.RegisterGeneric super concrete).GenericMap = c.GenericMap ∧
    (calls.foldl (fun cdc call => cdc.RegisterGeneric call.1 call.2) Cdc).GenericMap = [] := by
  refine ⟨rfl, rfl, rfl, ?_⟩
  have h : ∀ (cs : List (Value × Value)) (c0 : Codec),
      cs.foldl (fun cdc call => cdc.RegisterGeneric call.1 call.2) c0 = c0 := by
    intro cs
    induction cs with
    | nil => intro c0; rfl
    | cons a cs ih => intro c0; exact ih (c0.RegisterGeneric a.1 a.2)
  rw [h]
  rfl

/-- C13: take a field that is not a byte blob. Marked repeatable and holding the
single element `x`, it is encoded by the field loop exactly as when it is not marked
repeatable and holds the value `x`, all other tags being the same: both rounds append
the one element encoding of `x` and no header. Two such records with the same header
bytes therefore have the same result. -/
theorem Encode_single_element_ambiguity (E : Encoders) (cdc : Codec) (typeName : String)
    (pre post : List Field) (sf : StructField) (x vrep : Value) (r : Option String)
    (hblob : (E.resolve sf).primitiveType ≠ E.PRIMITIVETYPE_BYTES)
    (hlen : vrep.Len = some 1) (hidx : vrep.Index 0 = some x)
    (hr : r ≠ some "true") :
    (∀ buf, encodeField E cdc ⟨⟨sf.Name, { sf.Tag with TAG_REPEATABLE := some "true" }⟩, vrep⟩ buf
      = encodeField E cdc ⟨⟨sf.Name, { sf.Tag with TAG_REPEATABLE := r }⟩, x⟩ buf) ∧
    (∀ buf, (E.resolve sf).err = none →
      encodeField E cdc ⟨⟨sf.Name, { sf.Tag with TAG_REPEATABLE := some "true" }⟩, vrep⟩ buf
        = .next (buf ++ encodeElement E cdc (E.resolve sf) x)) ∧
    (E.encodeHeader cdc (Value.struct typeName
          (pre ++ ⟨⟨sf.Name, { sf.Tag with TAG_REPEATABLE := some "true" }⟩, vrep⟩ :: post))
        = E.encodeHeader cdc (Value.struct typeName
          (pre ++ ⟨⟨sf.Name, { sf.Tag with TAG_REPEATABLE := r }⟩, x⟩ :: post)) →
      Codec.Encode E cdc (Value.struct typeName
          (pre ++ ⟨⟨sf.Name, { sf.Tag with TAG_REPEATABLE := some "true" }⟩, vrep⟩ :: post))
        = Codec.Encode E cdc (Value.struct typeName
          (pre ++ ⟨⟨sf.Name, { sf.Tag with TAG_REPEATABLE := r }⟩, x⟩ :: post))) := by
  have herr := fun q => (resolve_repeatable_tag E sf q).1
  have hprim := fun q => (resolve_repeatable_tag E sf q).2
  have hrepStep : ∀ buf, (E.resolve sf).err = none →
      encodeField E cdc ⟨⟨sf.Name, { sf.Tag with TAG_REPEATABLE := some "true" }⟩, vrep⟩ buf
        = .next (buf ++ encodeElement E cdc (E.resolve sf) x) := by
    intro buf hres
    have hset := resolve_set_repeatable E sf (some "true") hres
    rw [encodeField_repeated E cdc _ buf [x] (by rw [herr]; exact hres)
      (by rw [hprim]; exact hblob) (by rw [hset]; simp) hlen
      (by intro j hj
          have hj0 : j = 0 := by simpa using hj
          subst hj0
          simpa using hidx)]
    simp only [hset, List.length_singleton, gt_iff_lt, lt_self_iff_false, if_false,
      List.flatMap_cons, List.flatMap_nil, List.append_nil]
    rfl
  have honeStep : ∀ buf, (E.resolve sf).err = none →
      encodeField E cdc ⟨⟨sf.Name, { sf.Tag with TAG_REPEATABLE := r }⟩, x⟩ buf
        = .next (buf ++ encodeElement E cdc (E.resolve sf) x) := by
    intro buf hres
    have hset := resolve_set_repeatable E sf r hres
    rw [encodeField_single E cdc _ buf (by rw [herr]; exact hres)
      (by rw [hprim]; exact hblob) (by rw [hset]; simp [hr])]
    simp only [hset]
    rfl
  have hboth : ∀ buf,
      encodeField E cdc ⟨⟨sf.Name, { sf.Tag with TAG_REPEATABLE := some "true" }⟩, vrep⟩ buf
        = encodeField E cdc ⟨⟨sf.Name, { sf.Tag with TAG_REPEATABLE := r }⟩, x⟩ buf := by
    intro buf
    cases hres : (E.resolve sf).err with
    | none => rw [hrepStep buf hres, honeStep buf hres]
    | some e =>
      rw [encodeField_abort E cdc _ buf e (by rw [herr]; exact hres),
        encodeField_abort E cdc _ buf e (by rw [herr]; exact hres)]
  exact ⟨hboth, hrepStep, fun hhead => Encode_middle E cdc typeName _ _ pre post hboth hhead⟩

theorem Encode_single_element_ambiguity_witness :
    Codec.Encode specEncoders cdc1 (Value.struct "T"
        ([] ++ ⟨⟨"Count", { (fCount 17).tField.Tag with TAG_REPEATABLE := some "true" }⟩,
                 .slice [.int .int32 17]⟩ :: [fFlag true]))
      = Codec.Encode specEncoders cdc1 (Value.struct "T"
        ([] ++ ⟨⟨"Count", { (fCount 17).tField.Tag with TAG_REPEATABLE := none }⟩,
                 .int .int32 17⟩ :: [fFlag true])) :=
  (Encode_single_element_ambiguity specEncoders cdc1 "T" [] [fFlag true] (fCount 17).tField
    (.int .int32 17) (.slice [.int .int32 17]) none (by decide) rfl rfl (by decide)).2.2
    (by decide)

/-- C16, as the code has it: `resolveTags` yields maxSize -1 when the maxSize tag is
absent and the tags resolve. A maxSize tag that is absent or parseable has no
influence on the round of the field loop for its field, so two records with the same
header bytes that differ only in such a maxSize tag have the same result. A maxSize
tag that `strconv.Atoi` rejects makes `resolveTags` fail for its field: `Encode` then
never returns a nil error (when it returns, the error is non-nil and the buffer is
nil), and it does return an error when the fields before that field conform to their
schema. -/
theorem Encode_maxSize_tag (E : Encoders) (cdc : Codec) (typeName : String)
    (pre post : List Field) (sf : StructField) (v : Value) (m1 m2 : Option String)
    (h1 : (atoiTag m1).2 = none) (h2 : (atoiTag m2).2 = none) :
    (sf.Tag.TAG_MAXSIZE = none → (E.resolve sf).err = none → (E.resolve sf).maxSize = -1) ∧
    (∀ buf, encodeField E cdc ⟨⟨sf.Name, { sf.Tag with TAG_MAXSIZE := m1 }⟩, v⟩ buf
      = encodeField E cdc ⟨⟨sf.Name, { sf.Tag with TAG_MAXSIZE := m2 }⟩, v⟩ buf) ∧
    (E.encodeHeader cdc (Value.struct typeName
          (pre ++ ⟨⟨sf.Name, { sf.Tag with TAG_MAXSIZE := m1 }⟩, v⟩ :: post))
        = E.encodeHeader cdc (Value.struct typeName
          (pre ++ ⟨⟨sf.Name, { sf.Tag with TAG_MAXSIZE := m2 }⟩, v⟩ :: post)) →
      Codec.Encode E cdc (Value.struct typeName
          (pre ++ ⟨⟨sf.Name, { sf.Tag with TAG_MAXSIZE := m1 }⟩, v⟩ :: post))
        = Codec.Encode E cdc (Value.struct typeName
          (pre ++ ⟨⟨sf.Name, { sf.Tag with TAG_MAXSIZE := m2 }⟩, v⟩ :: post))) ∧
    (∀ s : String, (Atoi s).2 ≠ none →
      (E.resolve ⟨sf.Name, { sf.Tag with TAG_MAXSIZE := some s }⟩).err ≠ none ∧
      (∀ res, Codec.Encode E cdc (Value.struct typeName
          (pre ++ ⟨⟨sf.Name, { sf.Tag with TAG_MAXSIZE := some s }⟩, v⟩ :: post)) = some res →
        res.err ≠ none ∧ res.buf = []) ∧
      ((∀ g ∈ pre, g.Conforms E) →
        ∃ e, Codec.Encode E cdc (Value.struct typeName
          (pre ++ ⟨⟨sf.Name, { sf.Tag with TAG_MAXSIZE := some s }⟩, v⟩ :: post))
            = some ⟨[], some e⟩)) := by
  have hset := resolve_set_maxSize E sf m1 m2 h1 h2
  have hstep : ∀ buf, encodeField E cdc ⟨⟨sf.Name, { sf.Tag with TAG_MAXSIZE := m1 }⟩, v⟩ buf
      = encodeField E cdc ⟨⟨sf.Name, { sf.Tag with TAG_MAXSIZE := m2 }⟩, v⟩ buf := by
    intro buf
    apply encodeField_congr_tags
    · rfl
    · show (E.resolve ⟨sf.Name, { sf.Tag with TAG_MAXSIZE := m1 }⟩).err = _
      rw [hset]
    · show (E.resolve ⟨sf.Name, { sf.Tag with TAG_MAXSIZE := m1 }⟩).primitiveType = _
      rw [hset]
    · show (E.resolve ⟨sf.Name, { sf.Tag with TAG_MAXSIZE := m1 }⟩).repeatable = _
      rw [hset]
    · intro x
      show encodeElement E cdc (E.resolve ⟨sf.Name, { sf.Tag with TAG_MAXSIZE := m1 }⟩) x = _
      rw [hset]
      rfl
  refine ⟨?_, hstep, fun hhead => Encode_middle E cdc typeName _ _ pre post hstep hhead, ?_⟩
  · intro habs
    simp only [Encoders.resolve, resolveTags, habs]
    split_ifs <;> intro hx <;> simp_all [atoiTag]
  · intro s hs
    have hbad := resolve_maxSize_rejected E sf s hs
    have hfail := Encode_of_failing_field E cdc typeName
      (pre ++ ⟨⟨sf.Name, { sf.Tag with TAG_MAXSIZE := some s }⟩, v⟩ :: post)
      ⟨⟨sf.Name, { sf.Tag with TAG_MAXSIZE := some s }⟩, v⟩ (by simp) hbad
    refine ⟨hbad, hfail.1, fun hpre => hfail.2 ?_⟩
    intro g hg
    exact hpre g (mem_encodedFields_append E _ post hbad pre g hg)

theorem Encode_maxSize_tag_witness :
    (Codec.Encode specEncoders cdc1 (Value.struct "T"
        ([] ++ ⟨⟨"Count", { (fSized none).tField.Tag with TAG_MAXSIZE := some "10" }⟩,
                 .int .int32 17⟩ :: []))
      = Codec.Encode specEncoders cdc1 (Value.struct "T"
        ([] ++ ⟨⟨"Count", { (fSized none).tField.Tag with TAG_MAXSIZE := none }⟩,
                 .int .int32 17⟩ :: []))) ∧
    (∃ e, Codec.Encode specEncoders cdc1 (Value.struct "T"
        ([fFlag true] ++ ⟨⟨"Count", { (fSized none).tField.Tag with TAG_MAXSIZE := some "1e3" }⟩,
                 .int .int32 17⟩ :: [fRepeatScalar])) = some ⟨[], some e⟩) :=
  ⟨(Encode_maxSize_tag specEncoders cdc1 "T" [] [] (fSized none).tField (.int .int32 17)
      (some "10") none (by decide) (by decide)).2.2.1 (by decide),
   ((Encode_maxSize_tag specEncoders cdc1 "T" [fFlag true] [fRepeatScalar] (fSized none).tField
      (.int .int32 17) none none (by decide) (by decide)).2.2.2 "1e3" (by decide)).2.2
      (by decide)⟩

/-- C16 fails as stated: the two records differ only in the value of the maxSize tag
of their field; with the value "10" `Encode` returns eight bytes and no error, with
the value "x" it returns no bytes and the error of `strconv.Atoi`. -/
theorem Encode_maxSize_counterexample :
    (fSized (some "x")).vField = (fSized (some "10")).vField ∧
    { (fSized (some "x")).tField.Tag with TAG_MAXSIZE := some "10" }
      = (fSized (some "10")).tField.Tag ∧
    Codec.Encode specEncoders cdc1 (Value.struct "T" [fSized (some "10")])
      = some ⟨[0, 0, 3, 233, 0, 0, 0, 17], none⟩ ∧
    Codec.Encode specEncoders cdc1 (Value.struct "T" [fSized (some "x")])
      = some ⟨[], some ⟨"Atoi", "x", .ErrSyntax⟩⟩ :=
  ⟨rfl, rfl, by decide, by decide⟩

end BinaryProto
